import Mathlib

/-!
Verification of the diagnostics ingestion and analysis engine of the
`builds` repository: a shallow embedding, in Lean 4, of

  * the performance analyzer (`internal/analysis/performance`, shipped in
    the repository as the file beginning `package performance`), over the
    build model of the older `internal/models` package (the variant whose
    `CompilerRemark` carries `Args []RemarkArg`);
  * the document-stream (YAML) remark parser and the kernel-info line
    parser of `internal/parsers` (both the `internal/parsers/remarks` /
    `internal/parsers/kernel` pair and the older `package kernel`
    variant);
  * a model, built from the specification text, of the line-oriented
    textual remark parser that the specification describes but whose
    source is not part of the repository snapshot.

Machine integers (`int32`, `int64`) are embedded as unbounded `Int`;
overflow plays no role in any statement proved here.  Go `float64`
values are embedded as exact extended rationals (`GoFloat` below):
the embedding keeps IEEE special values (infinities, NaN) and their
propagation through the operations the analyzer uses, and abstracts
rounding, which none of the verified statements depends on.
-/

/-! ## Go primitives -/

/-- Embedding of Go `float64` as an exact extended rational: a finite
rational, the two infinities, or NaN.  Rounding is abstracted away;
special-value propagation follows IEEE 754 for the operations used. -/
inductive GoFloat where
  | finite (q : ℚ)
  | inf
  | neginf
  | nan
deriving DecidableEq, Repr

namespace GoFloat

/-- Go float division, including the IEEE zero-division behaviour:
`x/0` is NaN for `x = 0` and a signed infinity otherwise. -/
def div : GoFloat → GoFloat → GoFloat
  | nan, _ => nan
  | _, nan => nan
  | finite x, finite y =>
      if y = 0 then
        (if x = 0 then nan else if 0 < x then inf else neginf)
      else finite (x / y)
  | finite _, inf => finite 0
  | finite _, neginf => finite 0
  | inf, finite y => if 0 ≤ y then inf else neginf
  | neginf, finite y => if 0 ≤ y then neginf else inf
  | inf, inf => nan
  | inf, neginf => nan
  | neginf, inf => nan
  | neginf, neginf => nan

/-- Go float addition with IEEE special-value propagation. -/
def add : GoFloat → GoFloat → GoFloat
  | nan, _ => nan
  | _, nan => nan
  | finite x, finite y => finite (x + y)
  | inf, neginf => nan
  | neginf, inf => nan
  | inf, _ => inf
  | _, inf => inf
  | neginf, _ => neginf
  | _, neginf => neginf

/-- Go float multiplication with IEEE special-value propagation. -/
def mul : GoFloat → GoFloat → GoFloat
  | nan, _ => nan
  | _, nan => nan
  | finite x, finite y => finite (x * y)
  | inf, finite y => if y = 0 then nan else if 0 < y then inf else neginf
  | finite x, inf => if x = 0 then nan else if 0 < x then inf else neginf
  | neginf, finite y => if y = 0 then nan else if 0 < y then neginf else inf
  | finite x, neginf => if x = 0 then nan else if 0 < x then neginf else inf
  | inf, inf => inf
  | inf, neginf => neginf
  | neginf, inf => neginf
  | neginf, neginf => inf

/-- Go float strict order `a < b`; NaN compares false to everything. -/
def lt : GoFloat → GoFloat → Bool
  | nan, _ => false
  | _, nan => false
  | finite x, finite y => decide (x < y)
  | finite _, inf => true
  | finite _, neginf => false
  | inf, _ => false
  | neginf, neginf => false
  | neginf, _ => true

/-- Go float equality test `a == b`; NaN compares unequal to everything
(including itself). -/
def beq : GoFloat → GoFloat → Bool
  | nan, _ => false
  | _, nan => false
  | finite x, finite y => decide (x = y)
  | inf, inf => true
  | neginf, neginf => true
  | _, _ => false

/-- A value is finite when it is neither an infinity nor NaN. -/
def isFinite : GoFloat → Bool
  | finite _ => true
  | _ => false

/-- Conversion of a Go integer to `float64` (exact in this model). -/
def ofInt (n : ℤ) : GoFloat := finite n

end GoFloat

/-- Go `map[string]V` embedded as an association list in insertion
order; `set` overwrites in place or appends a fresh key. -/
def goMapSet {V : Type} : List (String × V) → String → V → List (String × V)
  | [], k, v => [(k, v)]
  | (k₀, v₀) :: rest, k, v =>
      if k₀ = k then (k₀, v) :: rest else (k₀, v₀) :: goMapSet rest k v

/-- Go map read: the stored value, or `none` when the key is absent. -/
def goMapFind {V : Type} : List (String × V) → String → Option V
  | [], _ => none
  | (k₀, v₀) :: rest, k => if k₀ = k then some v₀ else goMapFind rest k

/-- Go map read with the zero value for a missing key, as Go indexing
returns. -/
def goMapGet {V : Type} (z : V) (m : List (String × V)) (k : String) : V :=
  (goMapFind m k).getD z

/-- Go `m[k]++`: read with zero default, increment, store back. -/
def goMapIncr (m : List (String × Int)) (k : String) : List (String × Int) :=
  goMapSet m k (goMapGet 0 m k + 1)

/-- Go `int64` division truncates toward zero. -/
def goIntDiv (a b : ℤ) : ℤ := Int.tdiv a b

/-- Go `strings.Contains s sub`. -/
def goContains (s sub : String) : Bool := sub.toList.IsInfix s.toList |> decide

/-- Go `strconv.ParseInt(s, 10, 64)` returning `some` exactly when Go
returns a nil error: an optional sign, a nonempty run of decimal
digits, and a value within the `int64` range. -/
def goParseInt64 (s : String) : Option ℤ :=
  let cs := s.toList
  let signed : ℤ × List Char :=
    match cs with
    | '+' :: rest => (1, rest)
    | '-' :: rest => (-1, rest)
    | _ => (1, cs)
  let ds := signed.2
  if ds = [] then none
  else if ds.all Char.isDigit then
    let v : ℤ := signed.1 * ds.foldl (fun a c => a * 10 + ((c.toNat - 48 : ℕ) : ℤ)) 0
    if -(2 ^ 63) ≤ v ∧ v ≤ 2 ^ 63 - 1 then some v else none
  else none

/-- Go `strings.HasPrefix s pre` (character-list based so that the
kernel can evaluate it). -/
def goStartsWith (s pre : String) : Bool := pre.toList.isPrefixOf s.toList

/-- Drop the first `n` characters of a string. -/
def goDrop (s : String) (n : ℕ) : String := String.mk (s.toList.drop n)

/-- Go `strings.ToLower` restricted to ASCII, which is all the
document tags use. -/
def goToLower (s : String) : String :=
  String.mk (s.toList.map (fun c =>
    if 65 ≤ c.toNat ∧ c.toNat ≤ 90 then Char.ofNat (c.toNat + 32) else c))

/-- Go `strings.Join parts sep`. -/
def goJoin (sep : String) (parts : List String) : String :=
  String.mk (List.flatten (List.intersperse sep.toList (parts.map String.toList)))

/-! ## Data model: the older `internal/models` package

The performance analyzer compiles against the `models` variant whose
`CompilerRemark` has a string `Type`, no separate status field, and an
argument list `Args []RemarkArg`.  Per the model documentation in the
repository, `Type` carries the document tag classification
(`Passed`, `Missed`, `Analysis`, ...), and a remark status is derived
from it. -/

structure LocationA where
  file : String := ""
  line : ℤ := 0
  column : ℤ := 0
  function : String := ""
deriving DecidableEq, Repr

structure RemarkArgA where
  string : String := ""
  callee : String := ""
  location : Option LocationA := none
  reason : String := ""
deriving DecidableEq, Repr

structure CompilerRemarkA where
  type : String := ""
  pass : String := ""
  message : String := ""
  location : LocationA := {}
  function : String := ""
  args : List RemarkArgA := []
deriving DecidableEq, Repr

structure CPUA where
  cores : ℤ := 0
  threads : ℤ := 0
deriving DecidableEq, Repr

structure MemoryA where
  total : ℤ := 0
  available : ℤ := 0
  used : ℤ := 0
deriving DecidableEq, Repr

structure HardwareA where
  cpu : CPUA := {}
  memory : MemoryA := {}
deriving DecidableEq, Repr

structure ResourceUsageA where
  maxMemory : ℤ := 0
  cpuTime : GoFloat := GoFloat.finite 0
  threads : ℤ := 0
deriving DecidableEq, Repr

structure PerformanceA where
  compileTime : GoFloat := GoFloat.finite 0
  linkTime : GoFloat := GoFloat.finite 0
  optimizeTime : GoFloat := GoFloat.finite 0
deriving DecidableEq, Repr

structure BuildA where
  remarks : List CompilerRemarkA := []
  hardware : HardwareA := {}
  resourceUsage : ResourceUsageA := {}
  performance : PerformanceA := {}
deriving DecidableEq, Repr

/-- The status classification of an older-model remark, derived from
its document-tag `Type` field exactly as the repository derives status
from tag (`Passed → passed`, `Missed → missed`, `Analysis → analysis`,
anything else `info`). -/
def statusOfA (r : CompilerRemarkA) : String :=
  if r.type = "Passed" then "passed"
  else if r.type = "Missed" then "missed"
  else if r.type = "Analysis" then "analysis"
  else "info"

/-! ## Performance analyzer (`package performance`) -/

structure PerformanceBottleneck where
  type : String
  severity : String
  description : String
  impact : GoFloat
deriving DecidableEq, Repr

structure PerformanceRecommendation where
  category : String
  action : String
  impact : String
  details : String
deriving DecidableEq, Repr

structure AnalysisResult where
  resourceEfficiency : GoFloat
  memoryUsageProfile : List (String × ℤ)
  compilationOverhead : List (String × GoFloat)
  optimizationMetrics : List (String × ℤ)
  bottlenecks : List PerformanceBottleneck
  recommendations : List PerformanceRecommendation
deriving DecidableEq, Repr

/-- `Analyzer.calculateResourceEfficiency`. -/
def calculateResourceEfficiency (b : BuildA) : GoFloat :=
  if GoFloat.beq b.resourceUsage.cpuTime (GoFloat.finite 0) then GoFloat.finite 0
  else
    let cpuEfficiency :=
      GoFloat.div (GoFloat.ofInt b.resourceUsage.threads) (GoFloat.ofInt b.hardware.cpu.cores)
    let memoryEfficiency :=
      GoFloat.div (GoFloat.ofInt b.resourceUsage.maxMemory) (GoFloat.ofInt b.hardware.memory.total)
    GoFloat.div (GoFloat.add cpuEfficiency memoryEfficiency) (GoFloat.finite 2)

/-- The inner argument loop of `Analyzer.calculateWastedMemory`: add
each nonempty plain-string argument that `strconv.ParseInt` accepts. -/
def wastedArgsFold (acc : ℤ) (args : List RemarkArgA) : ℤ :=
  args.foldl
    (fun acc2 a =>
      if a.string ≠ "" then
        match goParseInt64 a.string with
        | some size => acc2 + size
        | none => acc2
      else acc2)
    acc

/-- `Analyzer.calculateWastedMemory`: over remarks whose message
contains `alloca`, sum the parseable plain-string argument values. -/
def calculateWastedMemory (b : BuildA) : ℤ :=
  b.remarks.foldl
    (fun acc r =>
      if goContains r.message "alloca" then wastedArgsFold acc r.args else acc)
    0

/-- `Analyzer.analyzeMemoryUsage`. -/
def analyzeMemoryUsage (b : BuildA) : List (String × ℤ) :=
  let m := goMapSet [] "peak" b.resourceUsage.maxMemory
  let m := goMapSet m "average" (goIntDiv b.resourceUsage.maxMemory 2)
  let m := goMapSet m "allocated" b.resourceUsage.maxMemory
  goMapSet m "wasted" (calculateWastedMemory b)

/-- `Analyzer.analyzeCompilationOverhead`. -/
def analyzeCompilationOverhead (b : BuildA) : List (String × GoFloat) :=
  let m := goMapSet [] "parsing" (GoFloat.mul b.performance.compileTime (GoFloat.finite (2 / 10)))
  let m := goMapSet m "optimization" b.performance.optimizeTime
  let m := goMapSet m "codegen" (GoFloat.mul b.performance.compileTime (GoFloat.finite (4 / 10)))
  goMapSet m "linking" b.performance.linkTime

/-- The switch body of `Analyzer.analyzeOptimizationMetrics`: one
increment keyed by the remark `Type`. -/
def optMetricsStep (m : List (String × ℤ)) (r : CompilerRemarkA) : List (String × ℤ) :=
  if r.type = "Passed" then goMapIncr m "successful_optimizations"
  else if r.type = "Missed" then goMapIncr m "missed_optimizations"
  else if r.type = "Analysis" then goMapIncr m "analysis_remarks"
  else m

/-- `Analyzer.analyzeOptimizationMetrics`: one pass over the remark
list, incrementing a counter keyed by the remark `Type`. -/
def analyzeOptimizationMetrics (b : BuildA) : List (String × ℤ) :=
  b.remarks.foldl optMetricsStep []

/-- The `memoryUtilization` local of `Analyzer.identifyBottlenecks`:
peak memory over total hardware memory. -/
def memoryUtilization (b : BuildA) : GoFloat :=
  GoFloat.div (GoFloat.ofInt b.resourceUsage.maxMemory) (GoFloat.ofInt b.hardware.memory.total)

/-- `Analyzer.identifyBottlenecks`. -/
def identifyBottlenecks (b : BuildA) : List PerformanceBottleneck :=
  let l1 : List PerformanceBottleneck :=
    if GoFloat.lt (GoFloat.finite (9 / 10)) (memoryUtilization b) then
      [{ type := "memory", severity := "high",
         description := "High memory utilization", impact := memoryUtilization b }]
    else []
  let l2 : List PerformanceBottleneck :=
    if GoFloat.lt (GoFloat.finite 60) b.performance.compileTime then
      l1 ++ [{ type := "compilation", severity := "medium",
               description := "Long compilation time", impact := b.performance.compileTime }]
    else l1
  let missedOpts := b.remarks.countP (fun r => r.type = "Missed")
  if 10 < missedOpts then
    l2 ++ [{ type := "optimization", severity := "low",
             description := "High number of missed optimizations",
             impact := GoFloat.ofInt missedOpts }]
  else l2

/-- The fixed recommendation emitted for a memory bottleneck. -/
def memoryRecommendation : PerformanceRecommendation :=
  { category := "Memory Usage",
    action := "Consider reducing static allocations",
    impact := "High",
    details := "Large static allocations detected. Consider using dynamic allocation or reducing buffer sizes." }

/-- The fixed recommendation emitted for a compilation bottleneck. -/
def compilationRecommendation : PerformanceRecommendation :=
  { category := "Build Performance",
    action := "Enable parallel compilation",
    impact := "Medium",
    details := "Long compilation time detected. Consider using -j flag or distributed compilation." }

/-- The fixed recommendation emitted for an optimization bottleneck. -/
def optimizationRecommendation : PerformanceRecommendation :=
  { category := "Optimization",
    action := "Review missed optimization opportunities",
    impact := "Medium",
    details := "Multiple optimization opportunities were missed. Consider reviewing the code structure." }

/-- `Analyzer.generateRecommendations`: one recommendation appended per
bottleneck entry, keyed by its type. -/
def generateRecommendations (bottlenecks : List PerformanceBottleneck) :
    List PerformanceRecommendation :=
  bottlenecks.foldl
    (fun acc bn =>
      if bn.type = "memory" then acc ++ [memoryRecommendation]
      else if bn.type = "compilation" then acc ++ [compilationRecommendation]
      else if bn.type = "optimization" then acc ++ [optimizationRecommendation]
      else acc)
    []

/-- The result record `Analyzer.Analyze` assembles. -/
def analyzeResult (b : BuildA) : AnalysisResult :=
  { resourceEfficiency := calculateResourceEfficiency b
    memoryUsageProfile := analyzeMemoryUsage b
    compilationOverhead := analyzeCompilationOverhead b
    optimizationMetrics := analyzeOptimizationMetrics b
    bottlenecks := identifyBottlenecks b
    recommendations := generateRecommendations (identifyBottlenecks b) }

/-- `Analyzer.Analyze` returns the assembled result and a nil error. -/
def analyze (b : BuildA) : Except String AnalysisResult := .ok (analyzeResult b)

/-! ## Map and float lemmas -/

theorem goMapFind_set_self {V : Type} (m : List (String × V)) (k : String) (v : V) :
    goMapFind (goMapSet m k v) k = some v := by
  induction m with
  | nil => simp [goMapSet, goMapFind]
  | cons p rest ih =>
      by_cases h : p.1 = k <;> simp [goMapSet, goMapFind, h, ih]

theorem goMapFind_set_ne {V : Type} (m : List (String × V)) (k k' : String) (v : V)
    (h : k ≠ k') : goMapFind (goMapSet m k v) k' = goMapFind m k' := by
  induction m with
  | nil => simp [goMapSet, goMapFind, h]
  | cons p rest ih =>
      by_cases h0 : p.1 = k
      · subst h0; simp [goMapSet, goMapFind, h]
      · simp [goMapSet, goMapFind, h0, ih]

theorem goMapGet_incr_self (m : List (String × ℤ)) (k : String) :
    goMapGet 0 (goMapIncr m k) k = goMapGet 0 m k + 1 := by
  simp [goMapIncr, goMapGet, goMapFind_set_self]

theorem goMapGet_incr_ne (m : List (String × ℤ)) (k k' : String) (h : k ≠ k') :
    goMapGet 0 (goMapIncr m k) k' = goMapGet 0 m k' := by
  simp [goMapIncr, goMapGet, goMapFind_set_ne _ _ _ _ h]

/-- Generic counting lemma: if one fold step changes the value at key
`k` by exactly the indicator of `p`, the fold counts `p`. -/
theorem goMapGet_foldl_count {α : Type} (step : List (String × ℤ) → α → List (String × ℤ))
    (k : String) (p : α → Bool)
    (hstep : ∀ m a, goMapGet 0 (step m a) k = goMapGet 0 m k + (if p a then 1 else 0)) :
    ∀ (l : List α) (m : List (String × ℤ)),
      goMapGet 0 (l.foldl step m) k = goMapGet 0 m k + l.countP p := by
  intro l
  induction l with
  | nil => intro m; simp
  | cons a t ih =>
      intro m
      simp only [List.foldl_cons, List.countP_cons, ih, hstep]
      by_cases h : p a = true
      · simp only [h, if_true]
        push_cast
        ring
      · simp only [h, if_false]
        push_cast
        ring

theorem goFloat_div_intZero_notFinite (x : ℤ) :
    (GoFloat.div (GoFloat.ofInt x) (GoFloat.ofInt 0)).isFinite = false := by
  rcases lt_trichotomy x 0 with h | h | h
  · have hx : ¬((x : ℚ) = 0) := by exact_mod_cast ne_of_lt h
    have hx2 : ¬((0 : ℚ) < x) := by exact_mod_cast not_lt_of_gt h
    simp [GoFloat.div, GoFloat.ofInt, GoFloat.isFinite, hx, hx2]
  · subst h; simp [GoFloat.div, GoFloat.ofInt, GoFloat.isFinite]
  · have hx : ¬((x : ℚ) = 0) := by exact_mod_cast ne_of_gt h
    have hx2 : (0 : ℚ) < x := by exact_mod_cast h
    simp [GoFloat.div, GoFloat.ofInt, GoFloat.isFinite, hx, hx2]

theorem goFloat_add_notFinite {a b : GoFloat} (ha : a.isFinite = false)
    (hb : b.isFinite = false) : (GoFloat.add a b).isFinite = false := by
  cases a <;> cases b <;> simp_all [GoFloat.add, GoFloat.isFinite]

theorem goFloat_div_two_notFinite {a : GoFloat} (ha : a.isFinite = false) :
    (GoFloat.div a (GoFloat.finite 2)).isFinite = false := by
  cases a <;> simp_all [GoFloat.div, GoFloat.isFinite]

/-! ## Claim C1: analyzer behaviour on zero hardware totals -/

/-- Concrete build refuting claim C1 as stated: hardware reports zero
total memory and zero cores, but the recorded CPU time is nonzero, so
the efficiency divisions run and produce an infinity. -/
def buildC1cx : BuildA :=
  { resourceUsage := { maxMemory := 2, cpuTime := GoFloat.finite 1, threads := 1 } }

/-- C1 counterexample: on a build whose hardware reports zero total
memory and zero CPU cores but whose CPU time is 1, `analyze` returns
normally yet `resource_efficiency` is positive infinity, not the finite
number 0 — the claimed independence from the recorded CPU time fails. -/
theorem analyze_zero_hardware_claim_counterexample :
    buildC1cx.hardware.memory.total = 0 ∧ buildC1cx.hardware.cpu.cores = 0 ∧
    analyze buildC1cx = Except.ok (analyzeResult buildC1cx) ∧
    (analyzeResult buildC1cx).resourceEfficiency = GoFloat.inf ∧
    (analyzeResult buildC1cx).resourceEfficiency ≠ GoFloat.finite 0 := by
  refine ⟨rfl, rfl, rfl, ?_, ?_⟩ <;>
    simp [analyzeResult, calculateResourceEfficiency, buildC1cx, GoFloat.beq,
      GoFloat.div, GoFloat.add, GoFloat.ofInt]

/-- C1 (amended): for every build whose hardware reports zero total
memory and zero CPU cores, `analyze` returns normally (a result and a
nil error); `resource_efficiency` is the finite number 0 when the
recorded CPU time equals 0, and otherwise is an infinity or NaN —
never a panic or error, but not finite. -/
theorem analyze_zero_hardware_resource_efficiency (b : BuildA)
    (hmem : b.hardware.memory.total = 0) (hcpu : b.hardware.cpu.cores = 0) :
    analyze b = Except.ok (analyzeResult b)
  ∧ (GoFloat.beq b.resourceUsage.cpuTime (GoFloat.finite 0) = true →
        (analyzeResult b).resourceEfficiency = GoFloat.finite 0)
  ∧ (GoFloat.beq b.resourceUsage.cpuTime (GoFloat.finite 0) = false →
        (analyzeResult b).resourceEfficiency.isFinite = false) := by
  refine ⟨rfl, ?_, ?_⟩
  · intro h
    simp [analyzeResult, calculateResourceEfficiency, h]
  · intro h
    simp only [analyzeResult, calculateResourceEfficiency, h, Bool.false_eq_true,
      if_false, hmem, hcpu]
    exact goFloat_div_two_notFinite
      (goFloat_add_notFinite (goFloat_div_intZero_notFinite _)
        (goFloat_div_intZero_notFinite _))

/-- All-zero build used to instantiate the amended C1 theorem. -/
def buildC1w : BuildA := {}

/-- Witness for the amended C1 theorem at a concrete build. -/
theorem analyze_zero_hardware_resource_efficiency_witness :
    buildC1w.hardware.memory.total = 0 ∧ buildC1w.hardware.cpu.cores = 0 ∧
    (analyze buildC1w = Except.ok (analyzeResult buildC1w)
     ∧ (GoFloat.beq buildC1w.resourceUsage.cpuTime (GoFloat.finite 0) = true →
          (analyzeResult buildC1w).resourceEfficiency = GoFloat.finite 0)
     ∧ (GoFloat.beq buildC1w.resourceUsage.cpuTime (GoFloat.finite 0) = false →
          (analyzeResult buildC1w).resourceEfficiency.isFinite = false)) ∧
    (analyzeResult buildC1w).resourceEfficiency = GoFloat.finite 0 :=
  ⟨rfl, rfl, analyze_zero_hardware_resource_efficiency buildC1w rfl rfl,
    (analyze_zero_hardware_resource_efficiency buildC1w rfl rfl).2.1 (by decide)⟩

/-! ## Claim C2: optimization metrics count remarks by classification -/

/-- C2: for every build record, the `optimization_metrics` map of the
analysis result has `successful_optimizations` equal to the number of
remarks whose (tag-derived) status is `passed`, `missed_optimizations`
equal to the number whose status is `missed`, and `analysis_remarks`
equal to the number whose status is `analysis`. -/
theorem analyze_optimization_metrics_counts (b : BuildA) :
    goMapGet 0 (analyzeResult b).optimizationMetrics "successful_optimizations"
        = (b.remarks.countP (fun r => statusOfA r = "passed") : ℤ)
  ∧ goMapGet 0 (analyzeResult b).optimizationMetrics "missed_optimizations"
        = (b.remarks.countP (fun r => statusOfA r = "missed") : ℤ)
  ∧ goMapGet 0 (analyzeResult b).optimizationMetrics "analysis_remarks"
        = (b.remarks.countP (fun r => statusOfA r = "analysis") : ℤ) := by
  have h1 : ∀ (m : List (String × ℤ)) (r : CompilerRemarkA),
      goMapGet 0 (optMetricsStep m r) "successful_optimizations"
        = goMapGet 0 m "successful_optimizations"
          + (if decide (statusOfA r = "passed") then 1 else 0) := by
    intro m r
    by_cases hp : r.type = "Passed"
    · simp [optMetricsStep, statusOfA, hp, goMapGet_incr_self]
    · by_cases hm : r.type = "Missed"
      · simp [optMetricsStep, statusOfA, hp, hm,
          goMapGet_incr_ne m "missed_optimizations" "successful_optimizations" (by decide)]
      · by_cases ha : r.type = "Analysis"
        · simp [optMetricsStep, statusOfA, hp, hm, ha,
            goMapGet_incr_ne m "analysis_remarks" "successful_optimizations" (by decide)]
        · simp [optMetricsStep, statusOfA, hp, hm, ha]
  have h2 : ∀ (m : List (String × ℤ)) (r : CompilerRemarkA),
      goMapGet 0 (optMetricsStep m r) "missed_optimizations"
        = goMapGet 0 m "missed_optimizations"
          + (if decide (statusOfA r = "missed") then 1 else 0) := by
    intro m r
    by_cases hp : r.type = "Passed"
    · simp [optMetricsStep, statusOfA, hp,
        goMapGet_incr_ne m "successful_optimizations" "missed_optimizations" (by decide)]
    · by_cases hm : r.type = "Missed"
      · simp [optMetricsStep, statusOfA, hp, hm, goMapGet_incr_self]
      · by_cases ha : r.type = "Analysis"
        · simp [optMetricsStep, statusOfA, hp, hm, ha,
            goMapGet_incr_ne m "analysis_remarks" "missed_optimizations" (by decide)]
        · simp [optMetricsStep, statusOfA, hp, hm, ha]
  have h3 : ∀ (m : List (String × ℤ)) (r : CompilerRemarkA),
      goMapGet 0 (optMetricsStep m r) "analysis_remarks"
        = goMapGet 0 m "analysis_remarks"
          + (if decide (statusOfA r = "analysis") then 1 else 0) := by
    intro m r
    by_cases hp : r.type = "Passed"
    · simp [optMetricsStep, statusOfA, hp,
        goMapGet_incr_ne m "successful_optimizations" "analysis_remarks" (by decide)]
    · by_cases hm : r.type = "Missed"
      · simp [optMetricsStep, statusOfA, hp, hm,
          goMapGet_incr_ne m "missed_optimizations" "analysis_remarks" (by decide)]
      · by_cases ha : r.type = "Analysis"
        · simp [optMetricsStep, statusOfA, hp, hm, ha, goMapGet_incr_self]
        · simp [optMetricsStep, statusOfA, hp, hm, ha]
  have hrepr : (analyzeResult b).optimizationMetrics
      = List.foldl optMetricsStep [] b.remarks := rfl
  refine ⟨?_, ?_, ?_⟩
  · rw [hrepr, goMapGet_foldl_count _ _ _ h1]
    simp [goMapGet, goMapFind]
  · rw [hrepr, goMapGet_foldl_count _ _ _ h2]
    simp [goMapGet, goMapFind]
  · rw [hrepr, goMapGet_foldl_count _ _ _ h3]
    simp [goMapGet, goMapFind]


/-! ## Claim C6: bottleneck thresholds and the 65-second scenario -/

/-- `identifyBottlenecks` written as the three independent threshold
checks in emission order. -/
theorem identifyBottlenecks_eq (b : BuildA) :
    identifyBottlenecks b =
      (if GoFloat.lt (GoFloat.finite (9 / 10)) (memoryUtilization b) then
        [{ type := "memory", severity := "high", description := "High memory utilization",
           impact := memoryUtilization b }] else [])
      ++ (if GoFloat.lt (GoFloat.finite 60) b.performance.compileTime then
        [{ type := "compilation", severity := "medium", description := "Long compilation time",
           impact := b.performance.compileTime }] else [])
      ++ (if 10 < b.remarks.countP (fun r => r.type = "Missed") then
        [{ type := "optimization", severity := "low",
           description := "High number of missed optimizations",
           impact := GoFloat.ofInt (b.remarks.countP (fun r => r.type = "Missed")) }] else []) := by
  unfold identifyBottlenecks
  by_cases h1 : GoFloat.lt (GoFloat.finite (9 / 10)) (memoryUtilization b) = true <;>
    by_cases h2 : GoFloat.lt (GoFloat.finite 60) b.performance.compileTime = true <;>
    by_cases h3 : 10 < b.remarks.countP (fun r => r.type = "Missed") <;>
    simp [h1, h2, h3]

/-- C6: for every build record, a memory bottleneck (severity high) is
emitted exactly when peak memory over total memory exceeds 0.9, a
compilation bottleneck (severity medium) exactly when compile time
exceeds 60 seconds, and an optimization bottleneck (severity low)
exactly when the missed-optimization remark count exceeds 10; with
compile time 65 and the other inputs nominal the result is exactly one
compilation/medium bottleneck and exactly one recommendation, whose
category is Build Performance. -/
theorem analyze_bottleneck_thresholds (b : BuildA) :
    ((∃ x ∈ identifyBottlenecks b, x.type = "memory")
        ↔ GoFloat.lt (GoFloat.finite (9 / 10)) (memoryUtilization b) = true)
  ∧ ((∃ x ∈ identifyBottlenecks b, x.type = "compilation")
        ↔ GoFloat.lt (GoFloat.finite 60) b.performance.compileTime = true)
  ∧ ((∃ x ∈ identifyBottlenecks b, x.type = "optimization")
        ↔ 10 < b.remarks.countP (fun r => r.type = "Missed"))
  ∧ (∀ x ∈ identifyBottlenecks b,
        (x.type = "memory" → x.severity = "high")
      ∧ (x.type = "compilation" → x.severity = "medium")
      ∧ (x.type = "optimization" → x.severity = "low"))
  ∧ (GoFloat.lt (GoFloat.finite (9 / 10)) (memoryUtilization b) = false →
      b.performance.compileTime = GoFloat.finite 65 →
      b.remarks.countP (fun r => r.type = "Missed") ≤ 10 →
        (analyzeResult b).bottlenecks
            = [{ type := "compilation", severity := "medium",
                 description := "Long compilation time", impact := GoFloat.finite 65 }]
      ∧ (analyzeResult b).recommendations = [compilationRecommendation]
      ∧ compilationRecommendation.category = "Build Performance") := by
  have hbn : (analyzeResult b).bottlenecks = identifyBottlenecks b := rfl
  have hrec : (analyzeResult b).recommendations
      = generateRecommendations (identifyBottlenecks b) := rfl
  rw [hbn, hrec, identifyBottlenecks_eq]
  by_cases h1 : GoFloat.lt (GoFloat.finite (9 / 10)) (memoryUtilization b) = true <;>
    by_cases h2 : GoFloat.lt (GoFloat.finite 60) b.performance.compileTime = true <;>
    by_cases h3 : 10 < b.remarks.countP (fun r => r.type = "Missed")
  all_goals refine ⟨?_, ?_, ?_, ?_, ?_⟩
  all_goals
    first
    | (simp [h1, h2, h3]; done)
    | (intro x hx
       simp [h1, h2, h3] at hx
       first
       | (rcases hx with hx | hx | hx <;> subst hx <;> simp)
       | (rcases hx with hx | hx <;> subst hx <;> simp)
       | (subst hx; simp))
    | (intro hm hc ho
       first
       | (rw [h1] at hm; exact absurd hm (by simp))
       | (rw [hc] at h2
          exact absurd (show GoFloat.lt (GoFloat.finite 60) (GoFloat.finite 65) = true by
            norm_num [GoFloat.lt]) h2)
       | (exact absurd h3 (by omega))
       | (have h2e : GoFloat.lt (GoFloat.finite 60) (GoFloat.finite 65) = true := by
            norm_num [GoFloat.lt]
          have h3e : ¬10 < b.remarks.countP (fun r => r.type = "Missed") := by omega
          rw [hc]
          simp [hm, h2e, h3e, generateRecommendations, compilationRecommendation]
          done))

/-! ## Claim C7: the memory usage profile -/

/-- The wasted-memory quantity as the specification words it: over all
remarks whose message contains the substring `alloca`, the sum of
every plain-string argument value that parses as an integer. -/
def specWastedMemory (remarks : List CompilerRemarkA) : ℤ :=
  ((remarks.filter (fun r => goContains r.message "alloca")).map
      (fun r => ((r.args.filterMap (fun a => goParseInt64 a.string)).sum))).sum

theorem goParseInt64_empty : goParseInt64 "" = none := by decide

theorem wastedArgsFold_eq (args : List RemarkArgA) (acc : ℤ) :
    wastedArgsFold acc args
      = acc + (args.filterMap (fun a => goParseInt64 a.string)).sum := by
  induction args generalizing acc with
  | nil => simp [wastedArgsFold]
  | cons a t ih =>
      have hstep : wastedArgsFold acc (a :: t)
          = wastedArgsFold
              (if a.string ≠ "" then
                match goParseInt64 a.string with
                | some size => acc + size
                | none => acc
              else acc) t := rfl
      rw [hstep, ih, List.filterMap_cons]
      by_cases hs : a.string = ""
      · have hp : goParseInt64 a.string = none := by rw [hs]; exact goParseInt64_empty
        simp [hs, hp, goParseInt64_empty]
      · cases hp : goParseInt64 a.string with
        | none => simp [hs, hp]
        | some v =>
            simp only [hs, hp, ne_eq, not_false_iff, if_true, List.sum_cons]
            ring

theorem calculateWastedMemory_eq (b : BuildA) :
    calculateWastedMemory b = specWastedMemory b.remarks := by
  suffices h : ∀ (l : List CompilerRemarkA) (acc : ℤ),
      l.foldl (fun acc r =>
        if goContains r.message "alloca" then wastedArgsFold acc r.args else acc) acc
        = acc + specWastedMemory l by
    simpa [calculateWastedMemory] using h b.remarks 0
  intro l
  induction l with
  | nil => intro acc; simp [specWastedMemory]
  | cons r t ih =>
      intro acc
      rw [List.foldl_cons]
      by_cases hc : goContains r.message "alloca" = true
      · rw [if_pos hc, ih, wastedArgsFold_eq]
        have hsp : specWastedMemory (r :: t)
            = (r.args.filterMap (fun a => goParseInt64 a.string)).sum
              + specWastedMemory t := by
          simp [specWastedMemory, List.filter_cons, hc]
        rw [hsp]; ring
      · rw [if_neg hc, ih]
        have hsp : specWastedMemory (r :: t) = specWastedMemory t := by
          simp [specWastedMemory, List.filter_cons, hc]
        rw [hsp]

/-- C7: for every build record the memory usage profile has `peak` and
`allocated` equal to the recorded max memory, `average` equal to peak
divided by 2 (truncating integer division), and `wasted` equal to the
sum, over remarks whose message contains `alloca`, of the plain-string
argument values that parse as integers. -/
theorem analyze_memory_usage_profile (b : BuildA) :
    goMapGet 0 (analyzeResult b).memoryUsageProfile "peak" = b.resourceUsage.maxMemory
  ∧ goMapGet 0 (analyzeResult b).memoryUsageProfile "average"
      = goIntDiv b.resourceUsage.maxMemory 2
  ∧ goMapGet 0 (analyzeResult b).memoryUsageProfile "allocated" = b.resourceUsage.maxMemory
  ∧ goMapGet 0 (analyzeResult b).memoryUsageProfile "wasted"
      = specWastedMemory b.remarks := by
  refine ⟨?_, ?_, ?_, ?_⟩ <;>
    simp [analyzeResult, analyzeMemoryUsage, goMapSet, goMapFind, goMapGet,
      calculateWastedMemory_eq]

/-- Concrete build for the C6 scenario: compile time 65 seconds, all
other inputs nominal (zero). -/
def buildC6w : BuildA := { performance := { compileTime := GoFloat.finite 65 } }

/-- Witness for the C6 theorem at the 65-second build. -/
theorem analyze_bottleneck_thresholds_witness :
    GoFloat.lt (GoFloat.finite (9 / 10)) (memoryUtilization buildC6w) = false
  ∧ buildC6w.performance.compileTime = GoFloat.finite 65
  ∧ buildC6w.remarks.countP (fun r => r.type = "Missed") ≤ 10
  ∧ ((analyzeResult buildC6w).bottlenecks
        = [{ type := "compilation", severity := "medium",
             description := "Long compilation time", impact := GoFloat.finite 65 }]
     ∧ (analyzeResult buildC6w).recommendations = [compilationRecommendation]
     ∧ compilationRecommendation.category = "Build Performance") :=
  ⟨by decide, rfl, by decide,
   (analyze_bottleneck_thresholds buildC6w).2.2.2.2 (by decide) rfl (by decide)⟩

/-! ## Kernel-info line grammar: the four regular expressions

The kernel parsers share four regular expressions.  Each is embedded as
an executable leftmost matcher over the character list of a line
(`locationRegex`, `metricsRegex`, `callRegex`, `memoryRegex`); greedy
subgroup semantics are reproduced by trying longer candidate runs
first.  Lines are ASCII in every statement below, so character counts
agree with Go byte counts. -/

def qc : Char := Char.ofNat 39

def trimSpace (cs : List Char) : List Char :=
  ((cs.dropWhile Char.isWhitespace).reverse.dropWhile Char.isWhitespace).reverse

def goTrimQuotes (s : String) : String :=
  String.mk (((s.toList.dropWhile (fun c => c = qc)).reverse.dropWhile (fun c => c = qc)).reverse)

structure LocMatch where
  file : String
  lineDigits : String
  colDigits : String
  group4 : String
  matchedLen : Nat
deriving DecidableEq, Repr

def locLit : List Char := (" in artificial function ").toList ++ [qc]

def locMatchAt (cs : List Char) : Option LocMatch :=
  let file := cs.takeWhile (fun c => c ≠ ':')
  let r1 := cs.dropWhile (fun c => c ≠ ':')
  if file = [] then none else
  match r1 with
  | ':' :: r2 =>
    let d1 := r2.takeWhile Char.isDigit
    let r3 := r2.dropWhile Char.isDigit
    if d1 = [] then none else
    match r3 with
    | ':' :: r4 =>
      let d2 := r4.takeWhile Char.isDigit
      let r5 := r4.dropWhile Char.isDigit
      if d2 = [] then none else
      match r5 with
      | ':' :: r6 =>
        if r6.take locLit.length = locLit then
          let r7 := r6.drop locLit.length
          let name := r7.takeWhile (fun c => c ≠ qc)
          let r8 := r7.dropWhile (fun c => c ≠ qc)
          if name = [] then none else
          match r8 with
          | c :: _ =>
            if c = qc then
              some { file := String.mk file, lineDigits := String.mk d1,
                     colDigits := String.mk d2,
                     group4 := String.mk ((("artificial function ").toList ++ [qc]) ++ name ++ [qc]),
                     matchedLen := file.length + 1 + d1.length + 1 + d2.length + 1
                       + locLit.length + name.length + 1 }
            else none
          | [] => none
        else none
      | _ => none
    | _ => none
  | _ => none

def locFind : List Char → Option LocMatch
  | [] => none
  | c :: rest =>
    match locMatchAt (c :: rest) with
    | some m => some m
    | none => locFind rest

def metricMatchAt (cs : List Char) : Option (String × String) :=
  let name := cs.takeWhile (fun c => c.isAlpha || c = '_')
  let r1 := cs.dropWhile (fun c => c.isAlpha || c = '_')
  if name = [] then none else
  match r1 with
  | ' ' :: '=' :: ' ' :: r2 =>
    let ds := r2.takeWhile Char.isDigit
    if ds = [] then none else some (String.mk name, String.mk ds)
  | _ => none

def metricFind : List Char → Option (String × String)
  | [] => none
  | c :: rest =>
    match metricMatchAt (c :: rest) with
    | some m => some m
    | none => metricFind rest

def callLit : List Char := ("direct call, callee is ").toList ++ [qc]

def callMatchAt (cs : List Char) : Option String :=
  if cs.take callLit.length = callLit then
    let r := cs.drop callLit.length
    let name := r.takeWhile (fun c => c ≠ qc)
    let r2 := r.dropWhile (fun c => c ≠ qc)
    if name = [] then none else
    match r2 with
    | c :: _ => if c = qc then some (String.mk name) else none
    | [] => none
  else none

def callFind : List Char → Option String
  | [] => none
  | c :: rest =>
    match callMatchAt (c :: rest) with
    | some m => some m
    | none => callFind rest

def memTailLit1 : List Char := (" accesses memory in ").toList
def memTailLit2 : List Char := (" address space").toList

def memTailMatch (cs : List Char) : Option String :=
  if cs.take memTailLit1.length = memTailLit1 then
    let r := cs.drop memTailLit1.length
    let sp := r.takeWhile Char.isAlpha
    let r2 := r.dropWhile Char.isAlpha
    if sp = [] then none
    else if r2.take memTailLit2.length = memTailLit2 then some (String.mk sp) else none
  else none

def parenCandsFrom (r : List Char) : List (String × List Char) :=
  let run := r.takeWhile (fun c => c ≠ qc)
  ((List.range (run.length + 1)).reverse).filterMap (fun n =>
    let v := run.take n
    let after := r.drop n
    match after with
    | c1 :: c2 :: rest2 =>
        if c1 = qc ∧ c2 = ')' then some (String.mk v, rest2)
        else if c1 = ')' then some (String.mk v, c2 :: rest2)
        else none
    | [c1] => if c1 = ')' then some (String.mk v, ([] : List Char)) else none
    | [] => none)

def parenCands (cs : List Char) : List (String × List Char) :=
  match cs with
  | c :: rest => (if c = qc then parenCandsFrom rest else []) ++ parenCandsFrom cs
  | [] => parenCandsFrom cs

def memKw1 : List Char := (" instruction (").toList
def memKw2 : List Char := (" call (").toList

def memMatchAt (cs : List Char) : Option (String × String × String) :=
  match cs with
  | c :: rest =>
    if c = qc then
      let instr := rest.takeWhile (fun c => c ≠ qc)
      let r1 := rest.dropWhile (fun c => c ≠ qc)
      if instr = [] then none else
      match r1 with
      | c1 :: r2 =>
        if c1 = qc then
          let afterKw : Option (List Char) :=
            if r2.take memKw1.length = memKw1 then some (r2.drop memKw1.length)
            else if r2.take memKw2.length = memKw2 then some (r2.drop memKw2.length)
            else none
          match afterKw with
          | some r3 =>
            (parenCands r3).findSome? (fun p =>
              (memTailMatch p.2).map (fun sp => (String.mk instr, p.1, sp)))
          | none => none
        else none
      | [] => none
    else none
  | [] => none

def memFind : List Char → Option (String × String × String)
  | [] => none
  | c :: rest =>
    match memMatchAt (c :: rest) with
    | some m => some m
    | none => memFind rest

/-- Go `strconv.Atoi` with the error discarded (as the kernel parsers
do): the parsed value, or 0 when parsing fails or overflows. -/
def goAtoi (s : String) : ℤ :=
  match goParseInt64 s with
  | some v => v
  | none => 0

/-- Go `strconv.Itoa`. -/
def goItoa (n : ℤ) : String := toString n

/-- The mutable state of a kernel-info `Parser`: the current artificial
function name and the global metric accumulator. -/
structure KernelState where
  currentFunc : String := ""
  metrics : List (String × ℤ) := []
deriving DecidableEq, Repr

/-! ## Kernel-info parser, older model (`package kernel`, first variant)

The variant whose `parseLine` stores the metric value in the remark
argument list and writes the global accumulator directly. -/

/-- `Parser.parseLine` of the older kernel parser: strip a leading
location match, trim, then try metric / direct-call / memory-access
grammars in order; unmatched lines become `info` remarks. -/
def parseLineA (st : KernelState) (content : String) : CompilerRemarkA × KernelState :=
  let cs := content.toList
  let locRes := locFind cs
  let loc : LocationA :=
    match locRes with
    | some m => { file := m.file, line := goAtoi m.lineDigits,
                  column := goAtoi m.colDigits, function := goTrimQuotes m.group4 }
    | none => {}
  let st1 : KernelState :=
    match locRes with
    | some m => { st with currentFunc := goTrimQuotes m.group4 }
    | none => st
  let rest :=
    match locRes with
    | some m => cs.drop m.matchedLen
    | none => cs
  let msg := String.mk (trimSpace rest)
  match metricFind msg.toList with
  | some nv =>
      ({ type := "metric", message := nv.1, location := loc,
         args := [{ string := nv.2 }] },
       { st1 with metrics := goMapSet st1.metrics nv.1 (goAtoi nv.2) })
  | none =>
    match callFind msg.toList with
    | some callee =>
        ({ type := "function_call", message := msg, location := loc,
           args := [{ callee := callee }] }, st1)
    | none =>
      match memFind msg.toList with
      | some ivs =>
          ({ type := "memory_access", message := msg, location := loc,
             args := ([({ string := ivs.1 } : RemarkArgA)]
               ++ (if ivs.2.1 ≠ "" then [({ string := ivs.2.1 } : RemarkArgA)] else []))
               ++ [({ reason := ivs.2.2 } : RemarkArgA)] }, st1)
      | none => ({ type := "info", message := msg, location := loc }, st1)

/-- One scanner iteration of the older kernel `Parser.Parse`: skip
lines without the `remark: ` prefix, otherwise strip the prefix, parse
the line and append the remark. -/
def kernelStepA (acc : List CompilerRemarkA × KernelState) (line : String) :
    List CompilerRemarkA × KernelState :=
  if goStartsWith line "remark: " then
    let pr := parseLineA acc.2 (goDrop line 8)
    (acc.1 ++ [pr.1], pr.2)
  else acc

/-- The older kernel `Parser.Parse`: scan all lines, then append one
synthetic metric remark per accumulated metric. -/
def kernelParseA (lines : List String) : List CompilerRemarkA :=
  let res := lines.foldl kernelStepA ([], {})
  res.1 ++ res.2.metrics.map (fun p =>
    { type := "metric", message := p.1, args := [{ string := goItoa p.2 }] })

/-! ## Data model: the newer `internal/models` package

The variant with a `Status` field, a structured `RemarkArgs` record
(scalar fields overwritten later-wins, `Strings` accumulated), and an
optional `KernelInfo`.  The wall-clock `Timestamp` field carries no
parsed information and is omitted from the embedding. -/

structure LocationB where
  file : String := ""
  line : ℤ := 0
  column : ℤ := 0
  function : String := ""
  region : String := ""
  artifact : Bool := false
deriving DecidableEq, Repr

structure RemarkAccessB where
  type : String := ""
  debugLoc : Option LocationB := none
deriving DecidableEq, Repr

structure RemarkArgsB where
  strings : List String := []
  callee : String := ""
  caller : String := ""
  type : String := ""
  line : String := ""
  column : String := ""
  cost : String := ""
  reason : String := ""
  debugLoc : Option LocationB := none
  otherAccess : Option RemarkAccessB := none
  clobberedBy : Option RemarkAccessB := none
  values : List (String × String) := []
deriving DecidableEq, Repr

structure MemoryAccessB where
  type : String := ""
  addressSpace : String := ""
  instruction : String := ""
  variable_ : String := ""
  accessPattern : String := ""
deriving DecidableEq, Repr

structure KernelInfoB where
  threadLimit : ℤ := 0
  maxThreadsX : ℤ := 0
  maxThreadsY : ℤ := 0
  maxThreadsZ : ℤ := 0
  sharedMemory : ℤ := 0
  target : String := ""
  memoryAccesses : List MemoryAccessB := []
  directCalls : ℤ := 0
  indirectCalls : ℤ := 0
  callees : List String := []
  allocasCount : ℤ := 0
  allocasStaticSize : ℤ := 0
  allocasDynamicCount : ℤ := 0
  flatAddressSpaceAccesses : ℤ := 0
  inlineAssemblyCalls : ℤ := 0
  metrics : List (String × ℤ) := []
  attributes : List (String × String) := []
deriving DecidableEq, Repr

structure CompilerRemarkB where
  id : String := ""
  type : String := ""
  pass : String := ""
  status : String := ""
  message : String := ""
  function : String := ""
  location : LocationB := {}
  kernelInfo : Option KernelInfoB := none
  args : RemarkArgsB := {}
  hotness : ℤ := 0
  metadata : List (String × ℤ) := []
deriving DecidableEq, Repr

/-! ## Kernel-info parser, newer model (`internal/parsers/kernel`)

This variant types every per-line remark as kernel/kernel-info/analysis
and stores metric values inside the per-remark `KernelInfo`; it never
writes the global accumulator, so its trailing synthetic-metric loop
runs over an empty map. -/

/-- `Parser.parseLine` of the newer kernel parser. -/
def parseLineB (st : KernelState) (content : String) : CompilerRemarkB × KernelState :=
  let cs := content.toList
  let locRes := locFind cs
  let loc : LocationB :=
    match locRes with
    | some m => { file := m.file, line := goAtoi m.lineDigits,
                  column := goAtoi m.colDigits, function := goTrimQuotes m.group4,
                  artifact := true }
    | none => {}
  let st1 : KernelState :=
    match locRes with
    | some m => { st with currentFunc := goTrimQuotes m.group4 }
    | none => st
  let rest :=
    match locRes with
    | some m => cs.drop m.matchedLen
    | none => cs
  let msg := String.mk (trimSpace rest)
  let base : CompilerRemarkB :=
    { type := "kernel", pass := "kernel-info", status := "analysis",
      message := msg, location := loc }
  let kiBase : KernelInfoB := {}
  match metricFind msg.toList with
  | some nv =>
      let v := goAtoi nv.2
      let ki := { kiBase with metrics := goMapSet kiBase.metrics nv.1 v }
      let ki :=
        if nv.1 = "DirectCalls" then { ki with directCalls := v }
        else if nv.1 = "IndirectCalls" then { ki with indirectCalls := v }
        else if nv.1 = "FlatAddressSpaceAccesses" then { ki with flatAddressSpaceAccesses := v }
        else if nv.1 = "AllocasCount" then { ki with allocasCount := v }
        else if nv.1 = "AllocasStaticSize" then { ki with allocasStaticSize := v }
        else ki
      ({ base with kernelInfo := some ki }, st1)
  | none =>
    match callFind msg.toList with
    | some callee =>
        let ki : KernelInfoB :=
          { kiBase with directCalls := kiBase.directCalls + 1,
                        callees := kiBase.callees ++ [callee] }
        ({ base with kernelInfo := some ki }, st1)
    | none =>
      match memFind msg.toList with
      | some ivs =>
          let ki : KernelInfoB :=
            { kiBase with
                memoryAccesses := kiBase.memoryAccesses
                  ++ [{ type := ivs.1, instruction := ivs.2.1, addressSpace := ivs.2.2 }],
                flatAddressSpaceAccesses := kiBase.flatAddressSpaceAccesses + 1 }
          ({ base with kernelInfo := some ki }, st1)
      | none => ({ base with kernelInfo := some kiBase }, st1)

/-- One scanner iteration of the newer kernel `Parser.Parse`. -/
def kernelStepB (acc : List CompilerRemarkB × KernelState) (line : String) :
    List CompilerRemarkB × KernelState :=
  if goStartsWith line "remark: " then
    let pr := parseLineB acc.2 (goDrop line 8)
    (acc.1 ++ [pr.1], pr.2)
  else acc

/-- The newer kernel `Parser.Parse`: scan all lines, then append one
synthetic metric remark (type metric, pass kernel-info, the value in
`Metadata`) per entry of the accumulator — which this variant never
fills. -/
def kernelParseB (lines : List String) : List CompilerRemarkB :=
  let res := lines.foldl kernelStepB ([], {})
  res.1 ++ res.2.metrics.map (fun p =>
    { type := "metric", pass := "kernel-info", message := p.1,
      metadata := [("value", p.2)] })

/-! ## Document-stream (YAML) remark parser (`internal/parsers/remarks`)

The input resource is either unreadable (a read error, fatal for the
whole parse) or a sequence of documents; each document either fails to
decode (skipped) or carries an explicit type tag (possibly absent,
embedded as the empty string) and a decoded record body. -/

structure YamlLocation where
  file : String := ""
  line : ℤ := 0
  column : ℤ := 0
  function : String := ""
  region : String := ""
deriving DecidableEq, Repr

structure YamlAccess where
  type : String := ""
  debugLoc : Option YamlLocation := none
deriving DecidableEq, Repr

structure YamlArg where
  string : String := ""
  callee : String := ""
  caller : String := ""
  type : String := ""
  line : String := ""
  column : String := ""
  debugLoc : Option YamlLocation := none
  otherAccess : Option YamlAccess := none
  clobberedBy : Option YamlAccess := none
deriving DecidableEq, Repr

structure YamlRemark where
  pass : String := ""
  name : String := ""
  function : String := ""
  debugLoc : Option YamlLocation := none
  args : List YamlArg := []
  hotness : ℤ := 0
deriving DecidableEq, Repr

/-- One document of the stream: a decode failure (also covering
non-document or empty nodes), or a tagged record. -/
inductive YamlDoc where
  | undecodable
  | record (tag : String) (body : YamlRemark)
deriving DecidableEq, Repr

/-- The resource handed to the document-stream parser: unreadable, or a
document sequence. -/
inductive YamlInput where
  | unreadable (msg : String)
  | docs (l : List YamlDoc)
deriving DecidableEq, Repr

/-- Go `strings.TrimPrefix s "!"`: drop one leading exclamation mark. -/
def goTrimBang (s : String) : String :=
  if goStartsWith s "!" then goDrop s 1 else s

/-- `Parser.buildMessage`: `"<pass>: <name>"` followed by a rendering
of the argument fields that are present, joined by spaces. -/
def buildMessage (r : YamlRemark) : String :=
  let parts := r.args.foldl
    (fun ps a =>
      let ps := if a.string ≠ "" then ps ++ [a.string] else ps
      let ps := if a.callee ≠ "" ∧ a.caller ≠ "" then
          ps ++ [a.callee ++ " -> " ++ a.caller] else ps
      if a.type ≠ "" then ps ++ ["type: " ++ a.type] else ps)
    [r.pass ++ ": " ++ r.name]
  goJoin " " parts

/-- The argument-merge loop of the document-stream parser: plain
strings accumulate; scalar fields and the nested access descriptors
are overwritten later-wins. -/
def mergeYamlArgs (args : List YamlArg) : RemarkArgsB :=
  args.foldl
    (fun acc a =>
      let acc := if a.string ≠ "" then { acc with strings := acc.strings ++ [a.string] } else acc
      let acc := if a.callee ≠ "" then { acc with callee := a.callee } else acc
      let acc := if a.caller ≠ "" then { acc with caller := a.caller } else acc
      let acc := if a.type ≠ "" then { acc with type := a.type } else acc
      let acc := if a.line ≠ "" then { acc with line := a.line } else acc
      let acc := if a.column ≠ "" then { acc with column := a.column } else acc
      let acc :=
        match a.debugLoc with
        | some dl =>
            { acc with debugLoc := some { file := dl.file, line := dl.line, column := dl.column } }
        | none => acc
      let acc :=
        match a.otherAccess with
        | some oa =>
            let acs : RemarkAccessB :=
              { type := oa.type,
                debugLoc := oa.debugLoc.map (fun dl =>
                  ({ file := dl.file, line := dl.line, column := dl.column } : LocationB)) }
            { acc with otherAccess := some acs }
        | none => acc
      match a.clobberedBy with
      | some cb =>
          let acs : RemarkAccessB :=
            { type := cb.type,
              debugLoc := cb.debugLoc.map (fun dl =>
                ({ file := dl.file, line := dl.line, column := dl.column } : LocationB)) }
          { acc with clobberedBy := some acs }
      | none => acc)
    {}

/-- The status switch of the document-stream parser. -/
def statusForType (t : String) : String :=
  if t = "passed" then "passed"
  else if t = "missed" then "missed"
  else if t = "analysis" then "analysis"
  else "info"

/-- Conversion of one decoded document into a remark: skip when the
document is undecodable or its tag (after the `!` strip) is empty;
otherwise lower-case the tag into `Type`, derive `Status`, synthesize
`Message`, copy the location and merge the arguments. -/
def yamlConvert (d : YamlDoc) : Option CompilerRemarkB :=
  match d with
  | .undecodable => none
  | .record tag body =>
      let remarkType := goTrimBang tag
      if remarkType = "" then none
      else
        let t := goToLower remarkType
        some
          { type := t, pass := body.pass, status := statusForType t,
            message := buildMessage body, function := body.function,
            hotness := body.hotness,
            location :=
              match body.debugLoc with
              | some dl => { file := dl.file, line := dl.line, column := dl.column,
                             function := dl.function, region := dl.region }
              | none => {},
            args := if body.args ≠ [] then mergeYamlArgs body.args else {} }

/-- The document-stream `Parser.Parse`: a read failure is an error for
the whole parse; otherwise every document converts independently and
failures are skipped. -/
def yamlParse (input : YamlInput) : Except String (List CompilerRemarkB) :=
  match input with
  | .unreadable msg => .error ("failed to read file: " ++ msg)
  | .docs l => .ok (l.filterMap yamlConvert)

/-! ## Line-level characterizations shared by the kernel-parser claims -/

/-- The message a kernel `parseLine` works on: the content after the
location match (if any) is consumed and surrounding space trimmed. -/
def strippedMsg (content : String) : String :=
  let cs := content.toList
  let rest :=
    match locFind cs with
    | some m => cs.drop m.matchedLen
    | none => cs
  String.mk (trimSpace rest)

/-- The number of input lines carrying the `remark: ` signature. -/
def prefixedCount (lines : List String) : ℕ :=
  lines.countP (fun l => goStartsWith l "remark: ")

/-- The metric assignment (name, digits) a raw input line contributes,
if any: the line must carry the `remark: ` signature and its stripped
message must match the metric grammar. -/
def lineMetric (line : String) : Option (String × String) :=
  if goStartsWith line "remark: " then
    metricFind (strippedMsg (goDrop line 8)).toList
  else none

/-- Whether a raw input line assigns the named metric. -/
def lineAssigns (n : String) (line : String) : Bool :=
  match lineMetric line with
  | some nv => decide (nv.1 = n)
  | none => false

/-- The direct-call callee contributed by a stripped line content,
if any (the metric grammar takes precedence, as in `parseLine`). -/
def lineCalleeVal (content : String) : Option String :=
  match metricFind (strippedMsg content).toList with
  | some _ => none
  | none => callFind (strippedMsg content).toList

/-- The direct-call callee a raw input line contributes, if any. -/
def lineCallee (line : String) : Option String :=
  if goStartsWith line "remark: " then lineCalleeVal (goDrop line 8) else none

/-- The callee entries, in order, over an older-model remark list. -/
def calleeEntries (rs : List CompilerRemarkA) : List String :=
  rs.flatMap (fun r => r.args.filterMap (fun a => if a.callee = "" then none else some a.callee))

/-- The final accumulator state of the older kernel parser. -/
def kernelFinalState (lines : List String) : KernelState :=
  (lines.foldl kernelStepA ([], {})).2

/-- The synthetic trailing metric remarks of the older kernel parser. -/
def kernelSyntheticRemarks (lines : List String) : List CompilerRemarkA :=
  (kernelFinalState lines).metrics.map (fun p =>
    { type := "metric", message := p.1, args := [{ string := goItoa p.2 }] })

theorem kernelParseA_eq (lines : List String) :
    kernelParseA lines = (lines.foldl kernelStepA ([], {})).1 ++ kernelSyntheticRemarks lines := rfl

/-- The per-line metric evolution of the older parser state. -/
theorem parseLineA_metrics (st : KernelState) (content : String) :
    (parseLineA st content).2.metrics
      = (match metricFind (strippedMsg content).toList with
         | some nv => goMapSet st.metrics nv.1 (goAtoi nv.2)
         | none => st.metrics) := by
  unfold parseLineA strippedMsg
  cases h : locFind content.toList <;>
    simp only [h] <;>
    (repeat' split) <;>
    first
    | rfl
    | simp_all

/-! ## Claim C5: document-stream error contract -/

/-- A well-formed `!Passed` record. -/
def c5good : YamlDoc := .record "!Passed" { pass := "inline", name := "Inlined" }

/-- A record carrying no type tag. -/
def c5tagless : YamlDoc := .record "" { pass := "licm", name := "Hoisted" }

/-- C5: the document-stream parser fails exactly when the resource is
unreadable; a decodable stream never fails, and a stream of one
well-formed and one tag-less record yields exactly one remark. -/
theorem yamlParse_error_contract :
    (∀ input : YamlInput,
      (∃ e, yamlParse input = Except.error e) ↔ ∃ msg, input = YamlInput.unreadable msg)
  ∧ (∃ rs, yamlParse (YamlInput.docs [c5good, c5tagless]) = Except.ok rs ∧ rs.length = 1) := by
  constructor
  · intro input
    cases input with
    | unreadable msg =>
        exact ⟨fun _ => ⟨msg, rfl⟩, fun _ => ⟨_, rfl⟩⟩
    | docs l =>
        constructor
        · rintro ⟨e, he⟩
          exact absurd he (by simp [yamlParse])
        · rintro ⟨msg, h⟩
          exact absurd h (by simp)
  · exact ⟨_, rfl, rfl⟩

/-! ## Claim C9: remark status values -/

/-- Per-line remarks of the newer kernel parser always carry status
`analysis`. -/
theorem parseLineB_status (st : KernelState) (content : String) :
    (parseLineB st content).1.status = "analysis" := by
  unfold parseLineB
  cases h : locFind content.toList <;> simp only [h] <;> (repeat' split) <;> rfl

/-- The newer kernel parser never writes the global accumulator. -/
theorem parseLineB_metrics (st : KernelState) (content : String) :
    (parseLineB st content).2.metrics = st.metrics := by
  unfold parseLineB
  cases h : locFind content.toList <;> simp only [h] <;> (repeat' split) <;> rfl

/-- Per-line remarks of the newer kernel parser are typed `kernel`. -/
theorem parseLineB_type (st : KernelState) (content : String) :
    (parseLineB st content).1.type = "kernel" := by
  unfold parseLineB
  cases h : locFind content.toList <;> simp only [h] <;> (repeat' split) <;> rfl

/-- Scanner-fold invariant of the newer kernel parser: the accumulator
map never grows, and every produced remark is a `parseLineB` output. -/
theorem kernelFoldB_invariant (lines : List String) :
    ∀ acc : List CompilerRemarkB × KernelState,
      ((lines.foldl kernelStepB acc).2.metrics = acc.2.metrics)
      ∧ (∀ r ∈ (lines.foldl kernelStepB acc).1,
            r ∈ acc.1 ∨ ∃ st content, r = (parseLineB st content).1) := by
  induction lines with
  | nil => intro acc; exact ⟨rfl, fun r hr => Or.inl hr⟩
  | cons l t ih =>
      intro acc
      rw [List.foldl_cons]
      by_cases hp : goStartsWith l "remark: " = true
      · have hstep : kernelStepB acc l
            = (acc.1 ++ [(parseLineB acc.2 (goDrop l 8)).1], (parseLineB acc.2 (goDrop l 8)).2) := by
          unfold kernelStepB
          rw [if_pos hp]
        rw [hstep]
        refine ⟨?_, ?_⟩
        · rw [(ih _).1]
          exact parseLineB_metrics acc.2 (goDrop l 8)
        · intro r hr
          rcases (ih _).2 r hr with hin | hex
          · rcases List.mem_append.mp hin with h1 | h2
            · exact Or.inl h1
            · right
              refine ⟨acc.2, goDrop l 8, ?_⟩
              simpa using h2
          · exact Or.inr hex
      · have hstep : kernelStepB acc l = acc := by
          unfold kernelStepB
          rw [if_neg hp]
        rw [hstep]
        exact ih acc

lemma statusForType_mem (t : String) :
    statusForType t ∈ (["passed", "missed", "analysis", "info"] : List String) := by
  unfold statusForType
  split_ifs <;> simp

/-- C9 (amended): every remark returned by the document-stream parser
has status `passed`, `missed`, `analysis`, or `info` (info for
unrecognized tags); every remark returned by the newer kernel parser
has status `analysis` — its trailing synthetic-metric loop emits
nothing because the accumulator is never populated. -/
theorem remark_status_values :
    (∀ (docs : List YamlDoc) (rs : List CompilerRemarkB),
        yamlParse (.docs docs) = Except.ok rs →
        ∀ r ∈ rs, r.status ∈ (["passed", "missed", "analysis", "info"] : List String))
  ∧ (∀ (lines : List String), ∀ r ∈ kernelParseB lines, r.status = "analysis") := by
  constructor
  · intro docs rs hok r hr
    have hrs : rs = docs.filterMap yamlConvert := by
      simpa [yamlParse] using hok.symm
    subst hrs
    rcases List.mem_filterMap.mp hr with ⟨d, _, hconv⟩
    cases d with
    | undecodable => simp [yamlConvert] at hconv
    | record tag body =>
        by_cases ht : goTrimBang tag = ""
        · simp [yamlConvert, ht] at hconv
        · simp only [yamlConvert, ht, if_false] at hconv
          cases hconv
          exact statusForType_mem _
  · intro lines r hr
    have hsplit : kernelParseB lines
        = (lines.foldl kernelStepB ([], {})).1
          ++ ((lines.foldl kernelStepB ([], {})).2.metrics.map (fun p =>
              ({ type := "metric", pass := "kernel-info", message := p.1,
                 metadata := [("value", p.2)] } : CompilerRemarkB))) := rfl
    rw [hsplit] at hr
    have hm : (lines.foldl kernelStepB ([], ({} : KernelState))).2.metrics = [] :=
      (kernelFoldB_invariant lines ([], {})).1
    rw [hm] at hr
    simp only [List.map_nil, List.append_nil] at hr
    rcases (kernelFoldB_invariant lines ([], {})).2 r hr with h0 | ⟨st, content, hrp⟩
    · simp at h0
    · rw [hrp]
      exact parseLineB_status st content

/-- A document with an unrecognized tag (an LLVM `!AnalysisFPCommute`
record). -/
def c9doc : YamlDoc := .record "!AnalysisFPCommute" {}

/-- C9 counterexample: a decodable record with the tag
`!AnalysisFPCommute` produces a remark whose status is `info`, not one
of passed/missed/analysis. -/
theorem remark_status_claim_counterexample :
    ∃ r, yamlParse (YamlInput.docs [c9doc]) = Except.ok [r]
      ∧ r.status = "info"
      ∧ r.status ∉ (["passed", "missed", "analysis"] : List String) := by
  refine ⟨{ type := "analysisfpcommute", status := "info", message := ": " }, ?_, rfl, by decide⟩
  have h : yamlParse (YamlInput.docs [c9doc])
      = Except.ok ([c9doc].filterMap yamlConvert) := rfl
  rw [h]
  congr 1

/-- Witness for the amended C9 theorem at concrete inputs. -/
theorem remark_status_values_witness :
    (yamlParse (YamlInput.docs [c9doc]) = Except.ok ([c9doc].filterMap yamlConvert)
     ∧ ∀ r ∈ [c9doc].filterMap yamlConvert,
         r.status ∈ (["passed", "missed", "analysis", "info"] : List String))
  ∧ ∀ r ∈ kernelParseB ["remark: DirectCalls = 3"], r.status = "analysis" :=
  ⟨⟨rfl, (remark_status_values).1 [c9doc] _ rfl⟩,
   (remark_status_values).2 ["remark: DirectCalls = 3"]⟩

/-! ## Claim C3: output length vs matching input units -/

/-- C3 counterexample: one metric line produces two remarks from the
older kernel parser (the per-line metric remark and the trailing
synthetic metric remark), exceeding the number of `remark: ` lines. -/
theorem parser_length_claim_counterexample :
    (kernelParseA ["remark: DirectCalls = 3"]).length = 2
  ∧ prefixedCount ["remark: DirectCalls = 3"] = 1 := by
  constructor <;> rfl

/-- Whether a document carries a type tag surviving the `!` strip. -/
def hasTag (d : YamlDoc) : Bool :=
  match d with
  | .record tag _ => decide (goTrimBang tag ≠ "")
  | .undecodable => false

/-- The number of input lines contributing a metric assignment. -/
def mLineCount (lines : List String) : ℕ :=
  lines.countP (fun l => (lineMetric l).isSome)

lemma yamlConvert_isSome_hasTag (d : YamlDoc) :
    (yamlConvert d).isSome = true → hasTag d = true := by
  cases d with
  | undecodable => simp [yamlConvert]
  | record tag body =>
      by_cases h : goTrimBang tag = "" <;> simp [yamlConvert, hasTag, h]

lemma yamlFilterMap_length_le (docs : List YamlDoc) :
    (docs.filterMap yamlConvert).length ≤ docs.countP hasTag := by
  induction docs with
  | nil => simp
  | cons d t ih =>
      rw [List.filterMap_cons, List.countP_cons]
      cases hd : yamlConvert d with
      | none => exact le_trans ih (by omega)
      | some r =>
          have : hasTag d = true := yamlConvert_isSome_hasTag d (by simp [hd])
          simp only [List.length_cons, this, if_true]
          omega

lemma goMapSet_length_le {V : Type} (m : List (String × V)) (k : String) (v : V) :
    (goMapSet m k v).length ≤ m.length + 1 := by
  induction m with
  | nil => simp [goMapSet]
  | cons p rest ih =>
      by_cases h : p.1 = k <;> simp [goMapSet, h] <;> omega

theorem kernelFoldA_length (lines : List String) :
    ∀ acc : List CompilerRemarkA × KernelState,
      (lines.foldl kernelStepA acc).1.length + (lines.foldl kernelStepA acc).2.metrics.length
        ≤ acc.1.length + acc.2.metrics.length + prefixedCount lines + mLineCount lines := by
  induction lines with
  | nil => intro acc; simp [prefixedCount, mLineCount]
  | cons l t ih =>
      intro acc
      rw [List.foldl_cons]
      by_cases hp : goStartsWith l "remark: " = true
      · have hstep : kernelStepA acc l
            = (acc.1 ++ [(parseLineA acc.2 (goDrop l 8)).1], (parseLineA acc.2 (goDrop l 8)).2) := by
          unfold kernelStepA
          rw [if_pos hp]
        have hlm : lineMetric l = metricFind (strippedMsg (goDrop l 8)).toList := by
          unfold lineMetric
          rw [if_pos hp]
        have hpc : prefixedCount (l :: t) = prefixedCount t + 1 := by
          simp [prefixedCount, List.countP_cons, hp]
        have hmetrics := parseLineA_metrics acc.2 (goDrop l 8)
        rw [hstep]
        refine le_trans (ih _) ?_
        rw [hpc]
        cases hm : metricFind (strippedMsg (goDrop l 8)).toList with
        | none =>
            have hc : mLineCount (l :: t) = mLineCount t := by
              have hm2 : (lineMetric l).isSome = false := by rw [hlm, hm]; rfl
              simp [mLineCount, List.countP_cons, hm2]
            rw [hm] at hmetrics
            simp only [hmetrics, List.length_append, List.length_cons, List.length_nil, hc]
            omega
        | some nv =>
            have hc : mLineCount (l :: t) = mLineCount t + 1 := by
              have hm2 : (lineMetric l).isSome = true := by rw [hlm, hm]; rfl
              simp [mLineCount, List.countP_cons, hm2]
            rw [hm] at hmetrics
            have hlen := goMapSet_length_le acc.2.metrics nv.1 (goAtoi nv.2)
            simp only [hmetrics, List.length_append, List.length_cons, List.length_nil, hc]
            omega
      · have hstep : kernelStepA acc l = acc := by
          unfold kernelStepA
          rw [if_neg hp]
        have hlm : lineMetric l = none := by
          unfold lineMetric
          rw [if_neg hp]
        have hpc : prefixedCount (l :: t) = prefixedCount t := by
          simp [prefixedCount, List.countP_cons, hp]
        have hc : mLineCount (l :: t) = mLineCount t := by
          have hm2 : (lineMetric l).isSome = false := by rw [hlm]; rfl
          simp [mLineCount, List.countP_cons, hm2]
        rw [hstep, hpc, hc]
        exact ih acc

theorem kernelFoldB_length (lines : List String) :
    ∀ acc : List CompilerRemarkB × KernelState,
      (lines.foldl kernelStepB acc).1.length = acc.1.length + prefixedCount lines := by
  induction lines with
  | nil => intro acc; simp [prefixedCount]
  | cons l t ih =>
      intro acc
      rw [List.foldl_cons]
      by_cases hp : goStartsWith l "remark: " = true
      · have hstep : kernelStepB acc l
            = (acc.1 ++ [(parseLineB acc.2 (goDrop l 8)).1], (parseLineB acc.2 (goDrop l 8)).2) := by
          unfold kernelStepB
          rw [if_pos hp]
        have hpc : prefixedCount (l :: t) = prefixedCount t + 1 := by
          simp [prefixedCount, List.countP_cons, hp]
        rw [hstep, ih, hpc]
        simp
        omega
      · have hstep : kernelStepB acc l = acc := by
          unfold kernelStepB
          rw [if_neg hp]
        have hpc : prefixedCount (l :: t) = prefixedCount t := by
          simp [prefixedCount, List.countP_cons, hp]
        rw [hstep, hpc]
        exact ih acc

/-- C3 (amended): the document-stream parser returns at most one
remark per record carrying a type tag; the older kernel parser returns
at most one remark per `remark: ` line plus one trailing synthetic
remark per metric-assigning line; the newer kernel parser returns at
most one remark per `remark: ` line. -/
theorem parser_output_length_bound :
    (∀ (docs : List YamlDoc) (rs : List CompilerRemarkB),
        yamlParse (.docs docs) = Except.ok rs → rs.length ≤ docs.countP hasTag)
  ∧ (∀ lines : List String,
        (kernelParseA lines).length ≤ prefixedCount lines + mLineCount lines)
  ∧ (∀ lines : List String,
        (kernelParseB lines).length ≤ prefixedCount lines) := by
  refine ⟨?_, ?_, ?_⟩
  · intro docs rs hok
    have hrs : rs = docs.filterMap yamlConvert := by
      simpa [yamlParse] using hok.symm
    rw [hrs]
    exact yamlFilterMap_length_le docs
  · intro lines
    have h := kernelFoldA_length lines ([], {})
    have hsplit : (kernelParseA lines).length
        = (lines.foldl kernelStepA ([], {})).1.length
          + (lines.foldl kernelStepA ([], {})).2.metrics.length := by
      rw [kernelParseA_eq]
      simp [kernelSyntheticRemarks, kernelFinalState]
    rw [hsplit]
    simpa using h
  · intro lines
    have h := kernelFoldB_length lines ([], {})
    have hm : (lines.foldl kernelStepB ([], ({} : KernelState))).2.metrics = [] :=
      (kernelFoldB_invariant lines ([], {})).1
    have hsplit : (kernelParseB lines).length
        = (lines.foldl kernelStepB ([], {})).1.length := by
      have hrepr : kernelParseB lines
          = (lines.foldl kernelStepB ([], {})).1
            ++ ((lines.foldl kernelStepB ([], {})).2.metrics.map (fun p =>
                ({ type := "metric", pass := "kernel-info", message := p.1,
                   metadata := [("value", p.2)] } : CompilerRemarkB))) := rfl
      rw [hrepr, hm]
      simp
    rw [hsplit, h]
    simp

/-- Witness for the amended C3 bound at concrete inputs. -/
theorem parser_output_length_bound_witness :
    (yamlParse (.docs [c5good, c5tagless]) = Except.ok ([c5good, c5tagless].filterMap yamlConvert)
     ∧ ([c5good, c5tagless].filterMap yamlConvert).length ≤ [c5good, c5tagless].countP hasTag)
  ∧ (kernelParseA ["remark: DirectCalls = 3"]).length
      ≤ prefixedCount ["remark: DirectCalls = 3"] + mLineCount ["remark: DirectCalls = 3"] :=
  ⟨⟨rfl, (parser_output_length_bound).1 [c5good, c5tagless] _ rfl⟩,
   (parser_output_length_bound).2.1 ["remark: DirectCalls = 3"]⟩

/-! ## Claim C4: accumulator overwrite and append-only callees -/

/-- A successful `callRegex` match yields a nonempty callee name. -/
lemma callMatchAt_ne_empty : ∀ (cs : List Char) (m : String), callMatchAt cs = some m → m ≠ "" := by
  intro cs m h hm
  subst hm
  unfold callMatchAt at h
  (repeat' split at h) <;> simp_all
  obtain ⟨⟨hlt, hq⟩, h2⟩ := h
  rcases hd : List.dropWhile (fun c => !decide (c = qc)) (List.drop callLit.length cs)
    with _ | ⟨c, tail⟩
  · rw [hd] at h2
    exact Option.noConfusion h2
  · rw [hd] at h2
    have h2x : (if c = qc then
        some (String.mk (List.takeWhile (fun c => !decide (c = qc)) (List.drop callLit.length cs)))
        else none) = some "" := h2
    by_cases hcq : c = qc
    · rw [if_pos hcq] at h2x
      injection h2x with h3
      have h4 : List.takeWhile (fun c => !decide (c = qc)) (List.drop callLit.length cs)
          = ([] : List Char) := congrArg String.data h3
      have h5 : List.drop callLit.length cs = c :: tail := by
        have hsplit := List.takeWhile_append_dropWhile
          (p := fun c => !decide (c = qc)) (l := List.drop callLit.length cs)
        rw [h4, hd] at hsplit
        simpa using hsplit.symm
      have h6 : cs[callLit.length] = c := by
        have h7 : (List.drop callLit.length cs).get ⟨0, by rw [h5]; simp⟩ = c := by
          rw [List.get_of_eq h5]
          rfl
        simpa using h7
      exact hq (h6 ▸ hcq)
    · rw [if_neg hcq] at h2x
      exact Option.noConfusion h2x

/-- `callFind` never returns an empty callee name. -/
lemma callFind_ne_empty : ∀ (cs : List Char) (m : String), callFind cs = some m → m ≠ "" := by
  intro cs
  induction cs with
  | nil => intro m h; simp [callFind] at h
  | cons c rest ih =>
      intro m h
      unfold callFind at h
      cases hc : callMatchAt (c :: rest) with
      | some v =>
          rw [hc] at h
          cases h
          exact callMatchAt_ne_empty _ _ hc
      | none =>
          rw [hc] at h
          exact ih m h

/-- The callee entries contributed by one parsed line. -/
theorem parseLineA_calleeArgs (st : KernelState) (content : String) :
    ((parseLineA st content).1.args.filterMap
        (fun a => if a.callee = "" then none else some a.callee))
      = (lineCalleeVal content).toList := by
  unfold parseLineA lineCalleeVal strippedMsg
  cases h : locFind content.toList <;>
    simp only [h] <;>
    (repeat' split) <;>
    first
    | rfl
    | (simp_all; done)
    | (rename_i m hcall xr hm2
       have hne := callFind_ne_empty _ _ hcall
       simp_all
       done)
    | (split <;> simp_all)

/-- Synthetic metric remarks carry no callee entries. -/
theorem calleeEntries_synthetic (lines : List String) :
    calleeEntries (kernelSyntheticRemarks lines) = [] := by
  unfold kernelSyntheticRemarks calleeEntries
  induction (kernelFinalState lines).metrics with
  | nil => rfl
  | cons p t ih => simpa using ih

/-- Scanner-fold characterization of the callee entries. -/
theorem kernelFoldA_callees (lines : List String) :
    ∀ acc : List CompilerRemarkA × KernelState,
      calleeEntries (lines.foldl kernelStepA acc).1
        = calleeEntries acc.1 ++ lines.filterMap lineCallee := by
  induction lines with
  | nil => intro acc; simp
  | cons l t ih =>
      intro acc
      rw [List.foldl_cons, List.filterMap_cons]
      by_cases hp : goStartsWith l "remark: " = true
      · have hstep : kernelStepA acc l
            = (acc.1 ++ [(parseLineA acc.2 (goDrop l 8)).1], (parseLineA acc.2 (goDrop l 8)).2) := by
          unfold kernelStepA
          rw [if_pos hp]
        have hlc : lineCallee l = lineCalleeVal (goDrop l 8) := by
          unfold lineCallee
          rw [if_pos hp]
        rw [hstep, ih]
        have happ : calleeEntries (acc.1 ++ [(parseLineA acc.2 (goDrop l 8)).1])
            = calleeEntries acc.1 ++ (lineCalleeVal (goDrop l 8)).toList := by
          unfold calleeEntries
          rw [List.flatMap_append]
          simp only [List.flatMap_cons, List.flatMap_nil, List.append_nil]
          rw [parseLineA_calleeArgs]
        rw [happ, hlc]
        cases lineCalleeVal (goDrop l 8) <;> simp
      · have hstep : kernelStepA acc l = acc := by
          unfold kernelStepA
          rw [if_neg hp]
        have hlc : lineCallee l = none := by
          unfold lineCallee
          rw [if_neg hp]
        rw [hstep, hlc, ih]

/-- Preservation of a metric-map key over lines that do not assign it. -/
theorem kernelFoldA_find_preserved (n : String) (lines : List String) :
    ∀ acc : List CompilerRemarkA × KernelState,
      (∀ l ∈ lines, lineAssigns n l = false) →
      goMapFind (lines.foldl kernelStepA acc).2.metrics n = goMapFind acc.2.metrics n := by
  induction lines with
  | nil => intro acc _; rfl
  | cons l t ih =>
      intro acc hall
      rw [List.foldl_cons]
      have hl := hall l (by simp)
      have ht : ∀ l ∈ t, lineAssigns n l = false := fun x hx => hall x (by simp [hx])
      rw [ih _ ht]
      by_cases hp : goStartsWith l "remark: " = true
      · have hstep : kernelStepA acc l
            = (acc.1 ++ [(parseLineA acc.2 (goDrop l 8)).1], (parseLineA acc.2 (goDrop l 8)).2) := by
          unfold kernelStepA
          rw [if_pos hp]
        have hlm : lineMetric l = metricFind (strippedMsg (goDrop l 8)).toList := by
          unfold lineMetric
          rw [if_pos hp]
        rw [hstep]
        have hmetrics := parseLineA_metrics acc.2 (goDrop l 8)
        cases hmf : metricFind (strippedMsg (goDrop l 8)).toList with
        | none =>
            rw [hmf] at hmetrics
            simp [hmetrics]
        | some nv =>
            rw [hmf] at hmetrics
            have hne : ¬nv.1 = n := by
              have := hl
              unfold lineAssigns at this
              rw [hlm, hmf] at this
              simpa using this
            simp only [hmetrics]
            exact goMapFind_set_ne _ _ _ _ hne
      · have hstep : kernelStepA acc l = acc := by
          unfold kernelStepA
          rw [if_neg hp]
        rw [hstep]

/-- Key-uniqueness of an association-list map. -/
def keysNodup {V : Type} (m : List (String × V)) : Prop := (m.map Prod.fst).Nodup

lemma goMapSet_keys_mem {V : Type} (m : List (String × V)) (k : String) (v : V) (x : String) :
    x ∈ (goMapSet m k v).map Prod.fst → x ∈ m.map Prod.fst ∨ x = k := by
  induction m with
  | nil => simp [goMapSet]
  | cons p rest ih =>
      by_cases h : p.1 = k
      · simp only [goMapSet, h, if_true, List.map_cons, List.mem_cons]
        intro hx
        rcases hx with hx | hx
        · exact Or.inr hx
        · exact Or.inl (Or.inr hx)
      · simp only [goMapSet, h, if_false, List.map_cons, List.mem_cons]
        intro hx
        rcases hx with hx | hx
        · exact Or.inl (Or.inl hx)
        · rcases ih hx with h1 | h1
          · exact Or.inl (Or.inr h1)
          · exact Or.inr h1

lemma goMapSet_keysNodup {V : Type} (m : List (String × V)) (k : String) (v : V)
    (h : keysNodup m) : keysNodup (goMapSet m k v) := by
  induction m with
  | nil => simp [keysNodup, goMapSet]
  | cons p rest ih =>
      unfold keysNodup at *
      simp only [List.map_cons, List.nodup_cons] at h
      obtain ⟨hnm, hnd⟩ := h
      by_cases hk : p.1 = k
      · simp only [goMapSet, hk, if_true, List.map_cons, List.nodup_cons]
        exact ⟨by rw [← hk]; exact hnm, hnd⟩
      · simp only [goMapSet, hk, if_false, List.map_cons, List.nodup_cons]
        refine ⟨?_, ih hnd⟩
        intro hmem
        rcases goMapSet_keys_mem rest k v p.1 hmem with h1 | h1
        · exact hnm h1
        · exact hk h1

lemma goMapFind_filter {V : Type} (m : List (String × V)) (k : String) (v : V)
    (hn : keysNodup m) (hf : goMapFind m k = some v) :
    m.filter (fun p => decide (p.1 = k)) = [(k, v)] := by
  induction m with
  | nil => simp [goMapFind] at hf
  | cons p rest ih =>
      unfold keysNodup at hn
      simp only [List.map_cons, List.nodup_cons] at hn
      obtain ⟨hnm, hnd⟩ := hn
      by_cases hk : p.1 = k
      · have hv : p.2 = v := by
          unfold goMapFind at hf
          rw [if_pos hk] at hf
          exact Option.some.inj hf
        have hrest : rest.filter (fun p => decide (p.1 = k)) = [] := by
          rw [List.filter_eq_nil_iff]
          intro q hq hpq
          apply hnm
          have hqk : q.1 = k := by simpa using hpq
          rw [hk]
          rw [← hqk]
          exact List.mem_map_of_mem Prod.fst hq
        have hp : p = (k, v) := by
          cases p
          simp_all
        rw [List.filter_cons, if_pos (by simpa using hk), hrest, hp]
      · have hf2 : goMapFind rest k = some v := by
          unfold goMapFind at hf
          rw [if_neg hk] at hf
          exact hf
        rw [List.filter_cons, if_neg (by simpa using hk)]
        exact ih hnd hf2

/-- The fold of the older kernel parser preserves key-uniqueness of
the metric accumulator. -/
lemma kernelFoldA_keysNodup (lines : List String) :
    ∀ acc : List CompilerRemarkA × KernelState, keysNodup acc.2.metrics →
      keysNodup (lines.foldl kernelStepA acc).2.metrics := by
  induction lines with
  | nil => intro acc h; exact h
  | cons l t ih =>
      intro acc h
      rw [List.foldl_cons]
      apply ih
      by_cases hp : goStartsWith l "remark: " = true
      · have hstep : kernelStepA acc l
            = (acc.1 ++ [(parseLineA acc.2 (goDrop l 8)).1], (parseLineA acc.2 (goDrop l 8)).2) := by
          unfold kernelStepA
          rw [if_pos hp]
        rw [hstep]
        have hm := parseLineA_metrics acc.2 (goDrop l 8)
        cases hmf : metricFind (strippedMsg (goDrop l 8)).toList with
        | none =>
            rw [hmf] at hm
            simpa [hm] using h
        | some nv =>
            rw [hmf] at hm
            simp only [hm]
            exact goMapSet_keysNodup _ _ _ h
      · have hstep : kernelStepA acc l = acc := by
          unfold kernelStepA
          rw [if_neg hp]
        rw [hstep]
        exact h

/-- The two metric lines of the C4 scenario. -/
def dc3 : String := "remark: DirectCalls = 3"

/-- The later of the two metric lines of the C4 scenario. -/
def dc5 : String := "remark: DirectCalls = 5"

lemma kernelStepA_dc5 (acc : List CompilerRemarkA × KernelState) :
    (kernelStepA acc dc5).2.metrics = goMapSet acc.2.metrics "DirectCalls" 5 := by
  have hp : goStartsWith dc5 "remark: " = true := rfl
  have hstep : kernelStepA acc dc5
      = (acc.1 ++ [(parseLineA acc.2 (goDrop dc5 8)).1], (parseLineA acc.2 (goDrop dc5 8)).2) := by
    unfold kernelStepA
    rw [if_pos hp]
  rw [hstep]
  have hm := parseLineA_metrics acc.2 (goDrop dc5 8)
  have he : metricFind (strippedMsg (goDrop dc5 8)).toList = some ("DirectCalls", "5") := rfl
  rw [he] at hm
  rw [show ((acc.1 ++ [(parseLineA acc.2 (goDrop dc5 8)).1],
      (parseLineA acc.2 (goDrop dc5 8)).2) : List CompilerRemarkA × KernelState).2.metrics
    = (parseLineA acc.2 (goDrop dc5 8)).2.metrics from rfl, hm]
  rfl

/-- A name wrapped in single quotes. -/
def quoted (s : String) : String := String.singleton qc ++ s ++ String.singleton qc

/-- C4: in any run whose lines after the second assignment do not
reassign `DirectCalls`, feeding `DirectCalls = 3` and later
`DirectCalls = 5` leaves exactly one trailing synthetic metric remark
for `DirectCalls`, and it carries the last value written (5) — the
accumulator overwrites rather than sums; meanwhile the callee entries
of the whole output are exactly one entry per `direct call, callee
is ...` line, in order, duplicates retained. -/
theorem kernel_accumulator_overwrite (p m s : List String)
    (hs : ∀ l ∈ s, lineAssigns "DirectCalls" l = false) :
    (kernelSyntheticRemarks (p ++ [dc3] ++ m ++ [dc5] ++ s)).filter
        (fun r => decide (r.message = "DirectCalls"))
      = [{ type := "metric", message := "DirectCalls", args := [{ string := "5" }] }]
  ∧ (∀ lines : List String, calleeEntries (kernelParseA lines) = lines.filterMap lineCallee) := by
  constructor
  · have hfold : (p ++ [dc3] ++ m ++ [dc5] ++ s).foldl kernelStepA ([], {})
        = s.foldl kernelStepA
            (kernelStepA (((p ++ [dc3]) ++ m).foldl kernelStepA ([], {})) dc5) := by
      simp [List.foldl_append]
    have hfind : goMapFind (kernelFinalState (p ++ [dc3] ++ m ++ [dc5] ++ s)).metrics
        "DirectCalls" = some 5 := by
      unfold kernelFinalState
      rw [hfold, kernelFoldA_find_preserved "DirectCalls" s _ hs, kernelStepA_dc5]
      exact goMapFind_set_self _ _ _
    have hnodup : keysNodup (kernelFinalState (p ++ [dc3] ++ m ++ [dc5] ++ s)).metrics := by
      unfold kernelFinalState
      apply kernelFoldA_keysNodup
      simp [keysNodup]
    unfold kernelSyntheticRemarks
    rw [List.filter_map]
    have hpred : ((fun r => decide (r.message = "DirectCalls")) ∘
          (fun p : String × ℤ =>
            ({ type := "metric", message := p.1,
               args := [{ string := goItoa p.2 }] } : CompilerRemarkA)))
        = (fun p : String × ℤ => decide (p.1 = "DirectCalls")) := rfl
    rw [hpred, goMapFind_filter _ _ _ hnodup hfind]
    rfl
  · intro lines
    rw [kernelParseA_eq]
    have happ : calleeEntries ((lines.foldl kernelStepA ([], {})).1 ++ kernelSyntheticRemarks lines)
        = calleeEntries (lines.foldl kernelStepA ([], {})).1
          ++ calleeEntries (kernelSyntheticRemarks lines) := by
      unfold calleeEntries
      rw [List.flatMap_append]
    rw [happ, calleeEntries_synthetic, List.append_nil, kernelFoldA_callees lines ([], {})]
    rfl

/-- Noise before the first assignment in the C4 witness input. -/
def c4p : List String := ["noise line"]

/-- A direct-call line between the two assignments. -/
def c4m : List String := ["remark: direct call, callee is " ++ quoted "helper"]

/-- A duplicate direct-call line after the second assignment. -/
def c4s : List String := ["remark: direct call, callee is " ++ quoted "helper"]

/-- Witness for the C4 theorem at a concrete input, also exhibiting
the duplicate callee entries. -/
theorem kernel_accumulator_overwrite_witness :
    (∀ l ∈ c4s, lineAssigns "DirectCalls" l = false)
  ∧ ((kernelSyntheticRemarks (c4p ++ [dc3] ++ c4m ++ [dc5] ++ c4s)).filter
        (fun r => decide (r.message = "DirectCalls"))
      = [{ type := "metric", message := "DirectCalls", args := [{ string := "5" }] }]
     ∧ (∀ lines : List String, calleeEntries (kernelParseA lines) = lines.filterMap lineCallee))
  ∧ calleeEntries (kernelParseA (c4p ++ [dc3] ++ c4m ++ [dc5] ++ c4s)) = ["helper", "helper"] := by
  refine ⟨by decide, kernel_accumulator_overwrite c4p c4m c4s (by decide), ?_⟩
  rw [(kernel_accumulator_overwrite c4p c4m c4s (by decide)).2]
  rfl

/-! ## Claim C10: kernel remark location and kernel-info content -/

/-- A kernel-info line locating the artificial function `foo`. -/
def c10line : String :=
  "remark: test.c:1:2: in artificial function " ++ quoted "foo" ++ " DirectCalls = 3"

/-- C10 counterexample: the kernel remark stores the trimmed phrase
`artificial function 'foo` — not the artificial function name `foo` —
in `location.function` (the `strings.Trim` call only removes the
trailing quote of the matched group). -/
theorem kernel_location_claim_counterexample :
    ∃ r, kernelParseB [c10line] = [r]
      ∧ r.type = "kernel"
      ∧ r.location.function = "artificial function " ++ String.singleton qc ++ "foo"
      ∧ r.location.function ≠ "foo" := by
  refine ⟨_, rfl, rfl, rfl, by decide⟩

lemma locMatchAt_group4 : ∀ (cs : List Char) (mm : LocMatch), locMatchAt cs = some mm →
    ∃ ns : List Char, ns ≠ [] ∧ (∀ c ∈ ns, ¬c = qc) ∧
      mm.group4 = String.mk ((("artificial function ").toList ++ [qc]) ++ ns ++ [qc]) := by
  intro cs mm h
  unfold locMatchAt at h
  dsimp only at h
  (repeat' split at h) <;> try exact Option.noConfusion h
  injection h with h2
  subst h2
  refine ⟨_, by assumption, ?_, rfl⟩
  intro x hx
  simpa using List.mem_takeWhile_imp hx

lemma locFind_group4 : ∀ (cs : List Char) (mm : LocMatch), locFind cs = some mm →
    ∃ ns : List Char, ns ≠ [] ∧ (∀ c ∈ ns, ¬c = qc) ∧
      mm.group4 = String.mk ((("artificial function ").toList ++ [qc]) ++ ns ++ [qc]) := by
  intro cs
  induction cs with
  | nil => intro mm h; simp [locFind] at h
  | cons c rest ih =>
      intro mm h
      unfold locFind at h
      cases hc : locMatchAt (c :: rest) with
      | some v =>
          rw [hc] at h
          cases h
          exact locMatchAt_group4 _ _ hc
      | none =>
          rw [hc] at h
          exact ih mm h

lemma goTrimQuotes_phrase (ns : List Char) (hne : ns ≠ []) (hq : ∀ c ∈ ns, ¬c = qc) :
    goTrimQuotes (String.mk ((("artificial function ").toList ++ [qc]) ++ ns ++ [qc]))
      = String.mk (("artificial function ").toList ++ [qc] ++ ns) := by
  obtain ⟨x, xs, hxs⟩ : ∃ x xs, ns.reverse = x :: xs := by
    cases hrev : ns.reverse with
    | nil => exact absurd (by simpa using hrev) hne
    | cons x xs => exact ⟨x, xs, rfl⟩
  have hx_mem : x ∈ ns := by
    rw [← List.mem_reverse, hxs]
    simp
  have hxq : ¬x = qc := hq x hx_mem
  unfold goTrimQuotes
  have hlit : ("artificial function ").toList = 'a' :: ("rtificial function ").toList := rfl
  have hfront : List.dropWhile (fun c => c = qc)
      (String.mk ((("artificial function ").toList ++ [qc]) ++ ns ++ [qc])).toList
      = (("artificial function ").toList ++ [qc]) ++ ns ++ [qc] := by
    rw [show (String.mk ((("artificial function ").toList ++ [qc]) ++ ns ++ [qc])).toList
        = (("artificial function ").toList ++ [qc]) ++ ns ++ [qc] from rfl]
    rw [hlit]
    rw [List.cons_append, List.cons_append]
    exact List.dropWhile_cons_of_neg (by decide)
  rw [hfront]
  have hrev : (((("artificial function ").toList ++ [qc]) ++ ns ++ [qc]).reverse)
      = qc :: (ns.reverse ++ (qc :: ("artificial function ").toList.reverse)) := by
    simp [List.reverse_append]
  rw [hrev]
  have hdrop : List.dropWhile (fun c => c = qc)
      (qc :: (ns.reverse ++ (qc :: ("artificial function ").toList.reverse)))
      = ns.reverse ++ (qc :: ("artificial function ").toList.reverse) := by
    rw [List.dropWhile_cons_of_pos (by simp)]
    rw [hxs, List.cons_append]
    exact List.dropWhile_cons_of_neg (by simpa using hxq)
  rw [hdrop]
  congr 1
  simp [List.reverse_append]

/-- The function field of a parsed kernel remark: empty without a
location match, otherwise the trimmed matched phrase, which retains
the words `artificial function` and the opening quote. -/
theorem parseLineB_function (st : KernelState) (content : String) :
    (parseLineB st content).1.location.function = "" ∨
    ∃ ns : List Char, ns ≠ [] ∧
      (parseLineB st content).1.location.function
        = String.mk ((("artificial function ").toList ++ [qc]) ++ ns) := by
  cases h : locFind content.toList with
  | none =>
      left
      unfold parseLineB
      simp only [h]
      (repeat' split) <;> rfl
  | some mm =>
      right
      obtain ⟨ns, hne, hq, hg4⟩ := locFind_group4 _ _ h
      refine ⟨ns, hne, ?_⟩
      have hf : (parseLineB st content).1.location.function = goTrimQuotes mm.group4 := by
        unfold parseLineB
        simp only [h]
        (repeat' split) <;> rfl
      rw [hf, hg4]
      rw [goTrimQuotes_phrase ns hne hq]

/-- A per-line kernel remark carries a non-default `kernelInfo` record
exactly when the stripped message fires one of the three kernel-info
grammars (metric assignment, direct-call sentence, memory-access
sentence). -/
lemma parseLineB_kernelInfo (st : KernelState) (content : String) :
    ((parseLineB st content).1.kernelInfo ≠ some ({} : KernelInfoB)) ↔
      ((metricFind (strippedMsg content).toList).isSome = true
       ∨ (callFind (strippedMsg content).toList).isSome = true
       ∨ (memFind (strippedMsg content).toList).isSome = true) := by
  unfold parseLineB strippedMsg
  cases h : locFind content.toList <;> simp only [h] <;> (try dsimp only) <;>
    (repeat' split) <;> simp_all [goMapSet]

/-- C10 (amended): every remark of the newer kernel parser is typed
`kernel`; its `location.function` is either empty (no location match on
the line) or the trimmed matched phrase, which keeps the words
`artificial function` and the opening quote rather than being the bare
kernel name; and a per-line remark's `kernel_info` differs from the
empty record exactly when the stripped message fires one of the metric,
direct-call, or memory-access grammars. -/
theorem kernel_remark_invariants :
    (∀ (lines : List String), ∀ r ∈ kernelParseB lines,
        r.type = "kernel"
        ∧ (r.location.function = "" ∨
            ∃ ns : List Char, ns ≠ [] ∧
              r.location.function
                = String.mk ((("artificial function ").toList ++ [qc]) ++ ns)))
  ∧ (∀ (st : KernelState) (content : String),
      ((parseLineB st content).1.kernelInfo ≠ some ({} : KernelInfoB)) ↔
        ((metricFind (strippedMsg content).toList).isSome = true
         ∨ (callFind (strippedMsg content).toList).isSome = true
         ∨ (memFind (strippedMsg content).toList).isSome = true)) := by
  constructor
  · intro lines r hr
    have hsplit : kernelParseB lines
        = (lines.foldl kernelStepB ([], {})).1
          ++ ((lines.foldl kernelStepB ([], {})).2.metrics.map (fun p =>
              ({ type := "metric", pass := "kernel-info", message := p.1,
                 metadata := [("value", p.2)] } : CompilerRemarkB))) := rfl
    rw [hsplit] at hr
    have hm : (lines.foldl kernelStepB ([], ({} : KernelState))).2.metrics = [] :=
      (kernelFoldB_invariant lines ([], {})).1
    rw [hm] at hr
    simp only [List.map_nil, List.append_nil] at hr
    rcases (kernelFoldB_invariant lines ([], {})).2 r hr with h0 | ⟨st, content, hrp⟩
    · simp at h0
    · rw [hrp]
      exact ⟨parseLineB_type st content, parseLineB_function st content⟩
  · exact parseLineB_kernelInfo

/-- Witness for the amended C10 theorem on the concrete line
`c10line`. -/
theorem kernel_remark_invariants_witness :
    ((parseLineB ({} : KernelState) (goDrop c10line 8)).1 ∈ kernelParseB [c10line])
    ∧ ((parseLineB ({} : KernelState) (goDrop c10line 8)).1.type = "kernel"
       ∧ ((parseLineB ({} : KernelState) (goDrop c10line 8)).1.location.function = "" ∨
          ∃ ns : List Char, ns ≠ [] ∧
            (parseLineB ({} : KernelState) (goDrop c10line 8)).1.location.function
              = String.mk ((("artificial function ").toList ++ [qc]) ++ ns))) := by
  have hm : (parseLineB ({} : KernelState) (goDrop c10line 8)).1 ∈ kernelParseB [c10line] := by
    have h : kernelParseB [c10line]
        = [(parseLineB ({} : KernelState) (goDrop c10line 8)).1] := rfl
    rw [h]
    exact List.mem_singleton.mpr rfl
  exact ⟨hm, kernel_remark_invariants.1 [c10line] _ hm⟩

/-! ## Line-oriented remark parser of section 4.1

The spec describes a third parser — the line-oriented remark parser
with the inlining/vectorization/analysis/size-info classification and
the secondary inlining sentence grammar. No function in `src/`
implements this grammar (`part_002` and `parser.go` both hold the
kernel-info line grammar instead), so the component is modelled from
the spec text itself, following section 4.1 clause by clause. -/

structure SpecLocation where
  file : String := ""
  line : ℤ := 0
  column : ℤ := 0
deriving DecidableEq, Repr

structure SpecArgs where
  callee : String := ""
  caller : String := ""
  params : String := ""
  reason : String := ""
  callsite : String := ""
  subject : String := ""
deriving DecidableEq, Repr

structure SpecRemark where
  kind : String := ""
  pass : String := ""
  status : String := ""
  location : SpecLocation := {}
  message : String := ""
  args : SpecArgs := {}
deriving DecidableEq, Repr

/-- Consume an expected literal token at the head of the input. -/
def expectLit (lit cs : List Char) : Option (List Char) :=
  if lit.isPrefixOf cs then some (cs.drop lit.length) else none

/-- Consume a single-quoted token at the head of the input. -/
def quotedTok (cs : List Char) : Option (List Char × List Char) :=
  match cs with
  | c :: rest =>
      if c = qc then
        let tok := rest.takeWhile (fun x => ¬x = qc)
        match rest.dropWhile (fun x => ¬x = qc) with
        | q :: r2 => if q = qc then some (tok, r2) else none
        | [] => none
      else none
  | [] => none

/-- Split the input around the first occurrence of a pattern. -/
def splitFirstInfix (pat : List Char) : List Char → Option (List Char × List Char)
  | [] => none
  | c :: rest =>
      if pat.isPrefixOf (c :: rest) then some ([], (c :: rest).drop pat.length)
      else
        match splitFirstInfix pat rest with
        | some (pre, post) => some (c :: pre, post)
        | none => none

/-- Modelled from the spec: the section 4.1 secondary inlining grammar,
extracting callee, caller, parameter list, reason and callsite location
from a sentence of the form
quote callee quote ` inlined into ` quote caller quote
` with (` params `): ` reason ` at callsite ` loc `;`. -/
def parseInlineArgs (cs : List Char) : Option SpecArgs := do
  let p1 ← quotedTok cs
  let r2 ← expectLit (" inlined into ").toList p1.2
  let p2 ← quotedTok r2
  let r4 ← expectLit (" with (").toList p2.2
  let params := r4.takeWhile (fun x => ¬x = ')')
  let r5 ← expectLit ("): ").toList (r4.dropWhile (fun x => ¬x = ')'))
  let p3 ← splitFirstInfix (" at callsite ").toList r5
  let loc := p3.2.takeWhile (fun x => ¬x = ';')
  let _ ← expectLit ([';']) (p3.2.dropWhile (fun x => ¬x = ';'))
  pure { callee := String.mk p1.1, caller := String.mk p2.1,
         params := String.mk params, reason := String.mk p3.1,
         callsite := String.mk loc }

/-- Modelled from the spec: the classification table of section 4.1,
keyed on a substring test of the pass-tag (or, when no tag is present,
of the message body); yields kind, pass and status. -/
def classifyKey (key : List Char) : Option (String × String × String) :=
  if goContains (String.mk key) "inline" then some ("optimization", "inlining", "passed")
  else if goContains (String.mk key) "missed" then some ("optimization", "vectorization", "missed")
  else if goContains (String.mk key) "analysis" then some ("analysis", "analysis", "analysis")
  else if goContains (String.mk key) "size-info" then some ("metric", "size-info", "analysis")
  else none

/-- Modelled from the spec: split an optional trailing bracketed
pass-tag off the message; returns the message body and the tag (empty
when absent). -/
def splitPassTag (msgCs : List Char) : List Char × List Char :=
  match msgCs.reverse with
  | ']' :: rest =>
      let tagRev := rest.takeWhile (fun x => ¬x = '[')
      match rest.dropWhile (fun x => ¬x = '[') with
      | '[' :: bodyRev => (trimSpace bodyRev.reverse, tagRev.reverse)
      | _ => (msgCs, [])
  | _ => (msgCs, [])

/-- Modelled from the spec: one candidate line of the section 4.1
line-oriented remark parser. Lines without the `remark: ` prefix, lines
whose primary grammar `remark: file:line:col: message` fails, and
candidate lines whose secondary parsing fails are dropped (none). -/
def parseSpecLine (line : String) : Option SpecRemark := do
  let cs ← expectLit ("remark: ").toList line.toList
  let file := cs.takeWhile (fun x => ¬x = ':')
  let r1 ← expectLit ([':']) (cs.dropWhile (fun x => ¬x = ':'))
  let lnDigits := r1.takeWhile Char.isDigit
  let r2 ← expectLit ([':']) (r1.dropWhile Char.isDigit)
  let colDigits := r2.takeWhile Char.isDigit
  let r3 ← expectLit (": ").toList (r2.dropWhile Char.isDigit)
  if lnDigits = [] ∨ colDigits = [] then none
  else
    let bt := splitPassTag r3
    let key := if bt.2 = [] then bt.1 else bt.2
    match classifyKey key with
    | none => none
    | some kps =>
        let loc : SpecLocation :=
          { file := String.mk file, line := goAtoi (String.mk lnDigits),
            column := goAtoi (String.mk colDigits) }
        let args : Option SpecArgs :=
          if kps.2.1 = "inlining" then parseInlineArgs bt.1
          else if kps.1 = "metric" then some {}
          else
            match splitFirstInfix ([':']) bt.1 with
            | some sr => some { subject := String.mk sr.1,
                                reason := String.mk (trimSpace sr.2) }
            | none => some { subject := String.mk bt.1 }
        match args with
        | none => none
        | some a =>
            some { kind := kps.1, pass := kps.2.1, status := kps.2.2,
                   location := loc, message := String.mk bt.1, args := a }

/-- Modelled from the spec: the section 4.1 parser over a whole stream
of lines, order preserved, malformed lines silently skipped. -/
def parseSpecLines (lines : List String) : List SpecRemark :=
  lines.filterMap parseSpecLine

/-- The round-trip line of the spec, with single quotes spelled via
`quoted`. -/
def c8line : String :=
  "remark: foo.c:10:5: " ++ quoted "bar" ++ " inlined into " ++ quoted "baz"
    ++ " with (cost=5): good reason at callsite foo.c:12:1;"

/-- C8: feeding the round-trip line to the line-oriented remark parser
yields exactly one remark with pass inlining, status passed, location
foo.c:10:5, callee bar, caller baz, and reason `good reason`. -/
theorem inline_round_trip :
    ∃ r : SpecRemark, parseSpecLines [c8line] = [r]
      ∧ r.pass = "inlining" ∧ r.status = "passed"
      ∧ r.location.file = "foo.c" ∧ r.location.line = 10 ∧ r.location.column = 5
      ∧ r.args.callee = "bar" ∧ r.args.caller = "baz" ∧ r.args.reason = "good reason" := by
  refine ⟨_, rfl, rfl, rfl, rfl, rfl, rfl, rfl, rfl, rfl⟩
